import Mathlib

/-!
Shallow embedding of the core of the `automatic-clahe` crate
(`src/lib.rs`, `src/color_format.rs`) and proofs about the claims of its
natural-language specification.

Conventions:
* `u8`/`usize` values are modelled as `ℕ` (all arithmetic in the embedded
  fragments is non-negative and far from overflow); `f32` values are
  modelled as `ℚ` where the code only uses field operations and as `ℝ`
  where it uses `powf`/`ln`.
* Rust iterator state machines become explicit step functions plus fuel.
* Operations that can panic (index out of bounds, integer division by
  zero) or produce IEEE NaN (`0.0 / 0.0`) are modelled with `Option`,
  `none` standing for the panic/NaN outcome.
-/

namespace AutomaticClahe

/-- `f32::EPSILON` = 2⁻²³, used by the source as a guard summand. -/
def f32Eps : ℚ := 1 / 2 ^ 23

/-! ### Pdf (src/lib.rs, `struct Pdf([f32; 256])`)

A probability distribution is the list of its 256 bins, in index order. -/

/-- Embedding of `Pdf::new`: bin `i` is `(count of samples equal to i) / n`
where `n` is the number of samples.  The division is the `c as f32 / n`
of the source; with zero samples that division is `0.0 / 0.0` (NaN), which
this embedding makes explicit by returning `none` for the bin. -/
def Pdf.newBins (samples : List ℕ) : List (Option ℚ) :=
  (List.range 256).map fun i =>
    if samples.length = 0 then none
    else some ((samples.count i : ℚ) / (samples.length : ℚ))

/-- Total-`ℚ` version of `Pdf::new`, used downstream of the pipeline where
the sample sequence is non-empty (there the `ℚ` division agrees with the
`f32` division of the source). -/
def Pdf.new (samples : List ℕ) : List ℚ :=
  (List.range 256).map fun i => (samples.count i : ℚ) / (samples.length : ℚ)

/-- Embedding of `Pdf::redistribute`: cap every bin at `clip_point`,
accumulate the excess, and (when any excess was collected) add
`exceeded / 256` to every bin. -/
def Pdf.redistribute (pdf : List ℚ) (clip_point : ℚ) : List ℚ :=
  let clipped := pdf.map fun x => if clip_point < x then clip_point else x
  let exceeded := pdf.foldl (fun acc x => if clip_point < x then acc + (x - clip_point) else acc) 0
  if 0 < exceeded then clipped.map fun x => x + exceeded / 256 else clipped

lemma foldl_exceeded (c : ℚ) : ∀ (pdf : List ℚ) (a : ℚ),
    pdf.foldl (fun acc x => if c < x then acc + (x - c) else acc) a
      = a + (pdf.map fun x => if c < x then x - c else 0).sum
  | [], a => by simp
  | x :: xs, a => by
    by_cases h : c < x
    · simp only [List.foldl_cons, List.map_cons, List.sum_cons, if_pos h]
      rw [foldl_exceeded c xs]
      ring
    · simp only [List.foldl_cons, List.map_cons, List.sum_cons, if_neg h]
      rw [foldl_exceeded c xs]
      ring

lemma sum_clipped_add_excess (c : ℚ) : ∀ pdf : List ℚ,
    (pdf.map fun x => if c < x then c else x).sum
      + (pdf.map fun x => if c < x then x - c else 0).sum = pdf.sum
  | [] => by simp
  | x :: xs => by
    have ih := sum_clipped_add_excess c xs
    by_cases h : c < x <;>
      · simp only [List.map_cons, List.sum_cons, h, if_true, if_false]
        linarith

lemma sum_map_add_const (c : ℚ) : ∀ l : List ℚ,
    (l.map fun x => x + c).sum = l.sum + l.length * c
  | [] => by simp
  | x :: xs => by
    simp only [List.map_cons, List.sum_cons, List.length_cons]
    rw [sum_map_add_const c xs]
    push_cast
    ring

/-- Claim C5: clip-and-redistribute conserves total mass exactly (in exact
arithmetic): for every 256-bin PDF with non-negative bins and every clip
point, the bin sum after `Pdf::redistribute` equals the bin sum before. -/
theorem C5_redistribute_conserves_mass (pdf : List ℚ) (clip_point : ℚ)
    (hlen : pdf.length = 256) (hnn : ∀ x ∈ pdf, 0 ≤ x) :
    (Pdf.redistribute pdf clip_point).sum = pdf.sum := by
  unfold Pdf.redistribute
  set c := clip_point
  have hex : pdf.foldl (fun acc x => if c < x then acc + (x - c) else acc) 0
      = (pdf.map fun x => if c < x then x - c else 0).sum := by
    rw [foldl_exceeded]; ring
  by_cases h : 0 < pdf.foldl (fun acc x => if c < x then acc + (x - c) else acc) 0
  · simp only [if_pos h]
    rw [sum_map_add_const, List.length_map, hlen, hex]
    have := sum_clipped_add_excess c pdf
    push_cast
    rw [mul_div_cancel₀ _ (by norm_num : (256 : ℚ) ≠ 0)]
    linarith
  · simp only [if_neg h]
    have h0 : 0 ≤ (pdf.map fun x => if c < x then x - c else 0).sum := by
      apply List.sum_nonneg
      intro x hx
      rcases List.mem_map.1 hx with ⟨y, _, rfl⟩
      by_cases hy : c < y
      · simp only [if_pos hy]; linarith
      · simp only [if_neg hy]; exact le_refl 0
    rw [hex] at h
    have : (pdf.map fun x => if c < x then x - c else 0).sum = 0 := le_antisymm (not_lt.1 h) h0
    have hsum := sum_clipped_add_excess c pdf
    rw [this] at hsum
    linarith

/-- Witness for C5 at a concrete 256-bin uniform PDF. -/
theorem C5_witness :
    (Pdf.redistribute (List.replicate 256 ((1 : ℚ) / 256)) (1 / 512)).sum
      = (List.replicate 256 ((1 : ℚ) / 256)).sum :=
  C5_redistribute_conserves_mass _ _ (List.length_replicate 256 _) (by
    intro x hx
    rcases List.eq_of_mem_replicate hx with rfl
    norm_num)

/-! ### Cdf (src/lib.rs, `struct Cdf([f32; 256])`) -/

/-- Running prefix sums, mirroring the accumulation loop of `Cdf::new`
(`sum += x; cdf[i] = sum`). -/
def partialSums : ℚ → List ℚ → List ℚ
  | _, [] => []
  | acc, x :: xs => (acc + x) :: partialSums (acc + x) xs

/-- Embedding of `Cdf::new`: prefix-sum the PDF, then divide every entry by
the final sum. -/
def Cdf.new (pdf : List ℚ) : List ℚ :=
  let sums := partialSums 0 pdf
  let total := pdf.foldl (· + ·) 0
  sums.map fun x => x / total

lemma foldl_add_eq_sum : ∀ (l : List ℚ) (a : ℚ), l.foldl (· + ·) a = a + l.sum
  | [], a => by simp
  | x :: xs, a => by
    simp only [List.foldl_cons, List.sum_cons]
    rw [foldl_add_eq_sum xs]
    ring

lemma partialSums_getLast? : ∀ (l : List ℚ) (acc : ℚ), l ≠ [] →
    (partialSums acc l).getLast? = some (acc + l.sum)
  | [], _, h => absurd rfl h
  | [x], acc, _ => by simp [partialSums]
  | x :: y :: ys, acc, _ => by
    have ih := partialSums_getLast? (y :: ys) (acc + x) (by simp)
    show ((acc + x) :: (acc + x + y) :: partialSums (acc + x + y) ys).getLast? = _
    rw [List.getLast?_cons_cons]
    rw [show (acc + x + y) :: partialSums (acc + x + y) ys
        = partialSums (acc + x) (y :: ys) from rfl]
    rw [ih]
    congr 1
    simp only [List.sum_cons]
    ring

lemma partialSums_head_le (l : List ℚ) (acc : ℚ) (hnn : ∀ x ∈ l, 0 ≤ x) :
    ∀ y ∈ (partialSums acc l).head?, acc ≤ y := by
  cases l with
  | nil => simp [partialSums]
  | cons x xs =>
    intro y hy
    simp only [partialSums, List.head?_cons, Option.mem_def, Option.some.injEq] at hy
    have : 0 ≤ x := hnn x (by simp)
    linarith [hy ▸ le_refl y]

lemma partialSums_chain : ∀ (l : List ℚ) (acc : ℚ), (∀ x ∈ l, 0 ≤ x) →
    List.Chain' (· ≤ ·) (partialSums acc l)
  | [], _, _ => List.chain'_nil
  | x :: xs, acc, hnn => by
    simp only [partialSums]
    rw [List.chain'_cons']
    refine ⟨?_, partialSums_chain xs (acc + x) fun z hz => hnn z (by simp [hz])⟩
    exact partialSums_head_le xs (acc + x) fun z hz => hnn z (by simp [hz])

/-- Claim C6: for a 256-bin PDF with non-negative bins, at least one of them
positive, the CDF built by `Cdf::new` is non-decreasing and its last entry
equals 1 (exactly, in exact arithmetic). -/
theorem C6_cdf_monotone_last_one (pdf : List ℚ) (hlen : pdf.length = 256)
    (hnn : ∀ x ∈ pdf, 0 ≤ x) (hpos : ∃ x ∈ pdf, 0 < x) :
    List.Chain' (· ≤ ·) (Cdf.new pdf) ∧ (Cdf.new pdf).getLast? = some 1 := by
  obtain ⟨x0, hx0m, hx0⟩ := hpos
  have htot : 0 < pdf.sum := lt_of_lt_of_le hx0 (List.single_le_sum hnn x0 hx0m)
  have hne : pdf ≠ [] := by
    intro h
    rw [h] at hx0m
    exact absurd hx0m (List.not_mem_nil x0)
  have hfold : pdf.foldl (· + ·) 0 = pdf.sum := by
    rw [foldl_add_eq_sum]; ring
  constructor
  · unfold Cdf.new
    rw [List.chain'_map]
    apply List.Chain'.imp ?_ (partialSums_chain pdf 0 hnn)
    intro a b hab
    rw [hfold]
    exact (div_le_div_iff_of_pos_right htot).mpr hab
  · unfold Cdf.new
    rw [List.getLast?_map, partialSums_getLast? pdf 0 hne, hfold]
    simp only [Option.map_some', zero_add, Option.some.injEq]
    exact div_self (ne_of_gt htot)

/-- Witness for C6 at a concrete 256-bin PDF concentrated on bin 0. -/
theorem C6_witness :
    List.Chain' (· ≤ ·) (Cdf.new ((1 : ℚ) :: List.replicate 255 0))
      ∧ (Cdf.new ((1 : ℚ) :: List.replicate 255 0)).getLast? = some 1 :=
  C6_cdf_monotone_last_one _ (by rw [List.length_cons, List.length_replicate])
    (by
      intro x hx
      rcases List.mem_cons.mp hx with rfl | h
      · norm_num
      · rcases List.eq_of_mem_replicate h with rfl
        exact le_refl 0)
    ⟨1, List.mem_cons_self 1 _, one_pos⟩

/-- Claim C8 (counterexample): with zero samples, `Pdf::new` divides each
zero count by the zero total; the first bin of the result is the undefined
division (`0.0 / 0.0`, NaN in `f32` — modelled `none`), not the value `0`. -/
theorem C8_counterexample :
    (Pdf.newBins []).head? = some none
      ∧ some (none : Option ℚ) ≠ some (some (0 : ℚ)) := by
  constructor
  · rfl
  · intro h
    exact Option.noConfusion (Option.some.inj h)

lemma length_ne_zero_of_ne_nil {α : Type} {l : List α} (h : l ≠ []) : l.length ≠ 0 :=
  fun h0 => h (List.length_eq_zero.mp h0)

/-- Claim C8 (amended): given zero samples every bin of `Pdf::new` is the
undefined division `0/0` (NaN in the `f32` code) rather than zero, and no
sentinel exists — for any non-empty sample list every bin is an ordinary
(defined) rational, and nothing downstream is skipped. -/
theorem C8_zero_samples_undefined :
    (∀ o ∈ Pdf.newBins [], o = none)
      ∧ ∀ samples : List ℕ, samples ≠ [] →
          ∀ o ∈ Pdf.newBins samples, ∃ q : ℚ, o = some q := by
  constructor
  · intro o ho
    rcases List.mem_map.1 ho with ⟨i, _, rfl⟩
    rfl
  · intro samples hne o ho
    rcases List.mem_map.1 ho with ⟨i, _, rfl⟩
    exact ⟨_, if_neg (length_ne_zero_of_ne_nil hne)⟩

/-- Witness for C8 at the concrete one-sample list `[3]`. -/
theorem C8_witness :
    ([3] ≠ ([] : List ℕ))
      ∧ ∀ o ∈ Pdf.newBins [3], ∃ q : ℚ, o = some q :=
  ⟨by decide, C8_zero_samples_undefined.2 [3] (by decide)⟩

/-! ### Global luminance statistics (src/lib.rs, `Image::new`) -/

/-- Embedding of the `l_alpha` computation of `Image::new`:
`cdf.0.iter().take_while(|&&x| x <= 0.75).count()`. -/
def lAlpha (cdf : List ℚ) : ℕ :=
  (cdf.takeWhile fun x => decide (x ≤ 3 / 4)).length

/-- The global `l_alpha` of an image with the given luminance list. -/
def Image.lAlphaOf (lums : List ℕ) : ℕ :=
  lAlpha (Cdf.new (Pdf.new lums))

lemma sum_map_div : ∀ (l : List ℚ) (c : ℚ), (l.map fun x => x / c).sum = l.sum / c
  | [], c => by simp
  | x :: t, c => by
    simp only [List.map_cons, List.sum_cons, sum_map_div t c]
    ring

lemma sum_map_add_fun : ∀ (l : List ℕ) (f g : ℕ → ℚ),
    (l.map fun i => f i + g i).sum = (l.map f).sum + (l.map g).sum
  | [], _, _ => by simp
  | x :: t, f, g => by
    simp only [List.map_cons, List.sum_cons, sum_map_add_fun t f g]
    ring

lemma sum_range_indicator : ∀ (n x : ℕ), x < n →
    ((List.range n).map fun i => if x = i then (1 : ℚ) else 0).sum = 1 := by
  intro n
  induction n with
  | zero => intro x hx; exact absurd hx (Nat.not_lt_zero x)
  | succ n ih =>
    intro x hx
    rw [List.range_succ, List.map_append, List.sum_append]
    rcases Nat.lt_or_ge x n with h | h
    · rw [ih x h]
      have : x ≠ n := Nat.ne_of_lt h
      simp [this]
    · have hxn : x = n := Nat.le_antisymm (Nat.lt_succ_iff.mp hx) h
      subst hxn
      have hz : ((List.range x).map fun i => if x = i then (1 : ℚ) else 0).sum = 0 := by
        apply List.sum_eq_zero
        intro y hy
        rcases List.mem_map.1 hy with ⟨i, hi, rfl⟩
        have : i < x := List.mem_range.1 hi
        simp [Nat.ne_of_gt this]
      rw [hz]
      simp

lemma sum_range_count (n : ℕ) : ∀ l : List ℕ, (∀ x ∈ l, x < n) →
    ((List.range n).map fun i => (l.count i : ℚ)).sum = l.length
  | [], _ => by simp
  | x :: t, hb => by
    have hx : x < n := hb x (by simp)
    have ht : ∀ y ∈ t, y < n := fun y hy => hb y (by simp [hy])
    have hcount : ∀ i : ℕ, ((x :: t).count i : ℚ)
        = (t.count i : ℚ) + if x = i then (1 : ℚ) else 0 := by
      intro i
      rw [List.count_cons]
      by_cases h : i = x
      · subst h; simp
      · have : ¬ x = i := fun he => h he.symm
        simp [h, this]
    calc ((List.range n).map fun i => ((x :: t).count i : ℚ)).sum
        = ((List.range n).map fun i =>
            (t.count i : ℚ) + if x = i then (1 : ℚ) else 0).sum := by
          congr 1
          apply List.map_congr_left
          intro i _
          exact hcount i
      _ = ((List.range n).map fun i => (t.count i : ℚ)).sum
            + ((List.range n).map fun i => if x = i then (1 : ℚ) else 0).sum :=
          sum_map_add_fun _ _ _
      _ = (t.length : ℚ) + 1 := by
          rw [sum_range_count n t ht, sum_range_indicator n x hx]
      _ = ((x :: t).length : ℚ) := by
          rw [List.length_cons]
          push_cast
          ring

/-- The bins of `Pdf::new` sum to 1 for a non-empty 8-bit sample list. -/
lemma Pdf.new_sum (samples : List ℕ) (hne : samples ≠ [])
    (hb : ∀ x ∈ samples, x < 256) : (Pdf.new samples).sum = 1 := by
  unfold Pdf.new
  have heq : ((List.range 256).map fun i => (samples.count i : ℚ) / (samples.length : ℚ))
      = ((List.range 256).map fun i => (samples.count i : ℚ)).map
          fun x => x / (samples.length : ℚ) := by
    rw [List.map_map]
    rfl
  rw [heq, sum_map_div, sum_range_count 256 samples hb]
  apply div_self
  intro h
  exact length_ne_zero_of_ne_nil hne (by exact_mod_cast h)

lemma Cdf.new_head (pdf : List ℚ) (p0 : ℚ) (h : pdf.head? = some p0) :
    (Cdf.new pdf).head? = some (p0 / pdf.foldl (· + ·) 0) := by
  cases pdf with
  | nil => exact absurd h (by simp)
  | cons y t =>
    simp only [List.head?_cons, Option.some.injEq] at h
    have hcdf : Cdf.new (y :: t)
        = ((0 + y) / ((y :: t).foldl (· + ·) 0))
          :: (partialSums (0 + y) t).map
              (fun s => s / ((y :: t).foldl (· + ·) 0)) := rfl
    rw [hcdf, List.head?_cons, zero_add, h]

lemma lAlpha_eq_zero (c : List ℚ) (x : ℚ) (h : c.head? = some x)
    (hx : ¬ x ≤ 3 / 4) : lAlpha c = 0 := by
  cases c with
  | nil => exact absurd h (by simp)
  | cons a t =>
    simp only [List.head?_cons, Option.some.injEq] at h
    subst h
    simp [lAlpha, List.takeWhile_cons, hx]

lemma lAlpha_pos (c : List ℚ) (x : ℚ) (h : c.head? = some x)
    (hx : x ≤ 3 / 4) : 1 ≤ lAlpha c := by
  cases c with
  | nil => exact absurd h (by simp)
  | cons a t =>
    simp only [List.head?_cons, Option.some.injEq] at h
    subst h
    simp [lAlpha, List.takeWhile_cons, hx]

/-- The global CDF of the image `[0,0,0,0,0,0,0,200]` has value 7/8 at
luminance level 0. -/
lemma cdf_head_concrete :
    (Cdf.new (Pdf.new [0, 0, 0, 0, 0, 0, 0, 200])).head? = some (7 / 8 : ℚ) := by
  have hb : ∀ x ∈ [0, 0, 0, 0, 0, 0, 0, 200], x < 256 := by decide
  have hs : (Pdf.new [0, 0, 0, 0, 0, 0, 0, 200]).sum = 1 :=
    Pdf.new_sum _ (by decide) hb
  have hfold : (Pdf.new [0, 0, 0, 0, 0, 0, 0, 200]).foldl (· + ·) 0 = 1 := by
    rw [foldl_add_eq_sum, hs]; ring
  have hhead : (Pdf.new [0, 0, 0, 0, 0, 0, 0, 200]).head? = some (7 / 8 : ℚ) := by
    unfold Pdf.new
    rw [List.head?_map]
    have h0 : (List.range 256).head? = some 0 := rfl
    rw [h0]
    have hcount : List.count 0 [0, 0, 0, 0, 0, 0, 0, 200] = 7 := by decide
    simp only [Option.map_some', Option.some.injEq, hcount]
    norm_num
  rw [Cdf.new_head _ _ hhead, hfold]
  norm_num

/-- Claim C9 (counterexample): a non-empty image whose global CDF already
exceeds 0.75 at level 0 (seven pixels of luminance 0, one of 200) gets
`l_alpha = 0`; `enhancement_weight_factor = l_max / l_alpha` then divides by
zero — `Image::new` has no guard. -/
theorem C9_counterexample :
    ([0, 0, 0, 0, 0, 0, 0, 200] ≠ ([] : List ℕ))
      ∧ Image.lAlphaOf [0, 0, 0, 0, 0, 0, 0, 200] = 0 :=
  ⟨by decide, lAlpha_eq_zero _ _ cdf_head_concrete (by norm_num)⟩

/-- Claim C9 (amended): `l_alpha ≥ 1` holds exactly when the global CDF at
level 0 is at most 0.75; otherwise `l_alpha = 0` and the division
`l_max / l_alpha` is by zero (the code has no guard). -/
theorem C9_lAlpha_pos_iff_head_le (lums : List ℕ) (x : ℚ)
    (h : (Cdf.new (Pdf.new lums)).head? = some x) :
    1 ≤ Image.lAlphaOf lums ↔ x ≤ 3 / 4 := by
  constructor
  · intro h1
    by_contra hx
    have := lAlpha_eq_zero _ _ h hx
    unfold Image.lAlphaOf at h1
    omega
  · intro hx
    exact lAlpha_pos _ _ h hx

/-- Witness for C9 at the concrete image of `C9_counterexample`: its global
CDF at level 0 is 7/8, so `1 ≤ l_alpha` fails there. -/
theorem C9_witness :
    (1 ≤ Image.lAlphaOf [0, 0, 0, 0, 0, 0, 0, 200] ↔ (7 / 8 : ℚ) ≤ 3 / 4) :=
  C9_lAlpha_pos_iff_head_le [0, 0, 0, 0, 0, 0, 0, 200] (7 / 8) cdf_head_concrete

/-! ### Block partitioner (src/lib.rs, `BlockRegions` and `Iterator for
BlockRegions`) -/

structure Point where
  x : ℕ
  y : ℕ
deriving DecidableEq

/-- `Region { start, end }` of the source; `end` is reserved in Lean, so the
second field is named `end_`. -/
structure Region where
  start : Point
  end_ : Point
deriving DecidableEq

structure BlockRegions where
  start : Point
  image_width : ℕ
  image_height : ℕ
  block_width : ℕ
  block_height : ℕ

/-- One step of `<BlockRegions as Iterator>::next`. -/
def BlockRegions.next (s : BlockRegions) : Option (Region × BlockRegions) :=
  if s.start.y = s.image_height then none
  else
    let start := s.start
    let ex0 := start.x + s.block_width
    let ey0 := start.y + s.block_height
    let ex := if s.image_width < ex0 + s.block_width then s.image_width else ex0
    let ey := if s.image_height < ey0 + s.block_height then s.image_height else ey0
    let s' := if ex = s.image_width
      then { s with start := ⟨0, ey⟩ }
      else { s with start := ⟨ex, start.y⟩ }
    some (⟨start, ⟨ex, ey⟩⟩, s')

/-- Run the iterator to exhaustion, given enough fuel. -/
def BlockRegions.collect : ℕ → BlockRegions → List Region
  | 0, _ => []
  | fuel + 1, s =>
    match s.next with
    | none => []
    | some (r, s') => r :: BlockRegions.collect fuel s'

/-- The region sequence of `BlockRegions::new` on an image of size `W × H`
with configured block size `bw × bh`: the iterator produces at most
`H * W + W` items, so this fuel exhausts it. -/
def blockRegions (W H bw bh : ℕ) : List Region :=
  BlockRegions.collect (H * W + W + 1) ⟨⟨0, 0⟩, W, H, bw, bh⟩

lemma collect_done (fuel W H bw bh x : ℕ) :
    BlockRegions.collect fuel ⟨⟨x, H⟩, W, H, bw, bh⟩ = [] := by
  cases fuel with
  | zero => rfl
  | succ n => simp [BlockRegions.collect, BlockRegions.next]

lemma collect_region_size :
    ∀ (fuel x y W H bw bh : ℕ), 0 < bw → 0 < bh →
      ∀ r ∈ BlockRegions.collect fuel ⟨⟨x, y⟩, W, H, bw, bh⟩,
        r.end_.x - r.start.x < 2 * bw ∧ r.end_.y - r.start.y < 2 * bh := by
  intro fuel
  induction fuel with
  | zero => intro x y W H bw bh _ _ r hr; exact absurd hr (List.not_mem_nil r)
  | succ fuel ih =>
    intro x y W H bw bh hbw hbh r hr
    by_cases hdone : y = H
    · subst hdone
      rw [collect_done] at hr
      exact absurd hr (List.not_mem_nil r)
    · by_cases hcx : W < x + bw + bw
      · by_cases hcy : H < y + bh + bh
        · have hstep : BlockRegions.collect (fuel + 1) ⟨⟨x, y⟩, W, H, bw, bh⟩
              = ⟨⟨x, y⟩, ⟨W, H⟩⟩ :: BlockRegions.collect fuel ⟨⟨0, H⟩, W, H, bw, bh⟩ := by
            simp [BlockRegions.collect, BlockRegions.next, hdone, hcx, hcy]
          rw [hstep] at hr
          rcases List.mem_cons.mp hr with rfl | hr'
          · exact ⟨by show W - x < 2 * bw; omega, by show H - y < 2 * bh; omega⟩
          · exact ih 0 H W H bw bh hbw hbh r hr'
        · have hstep : BlockRegions.collect (fuel + 1) ⟨⟨x, y⟩, W, H, bw, bh⟩
              = ⟨⟨x, y⟩, ⟨W, y + bh⟩⟩
                :: BlockRegions.collect fuel ⟨⟨0, y + bh⟩, W, H, bw, bh⟩ := by
            simp [BlockRegions.collect, BlockRegions.next, hdone, hcx, hcy]
          rw [hstep] at hr
          rcases List.mem_cons.mp hr with rfl | hr'
          · exact ⟨by show W - x < 2 * bw; omega, by show y + bh - y < 2 * bh; omega⟩
          · exact ih 0 (y + bh) W H bw bh hbw hbh r hr'
      · have hne : ¬ (x + bw = W) := by omega
        by_cases hcy : H < y + bh + bh
        · have hstep : BlockRegions.collect (fuel + 1) ⟨⟨x, y⟩, W, H, bw, bh⟩
              = ⟨⟨x, y⟩, ⟨x + bw, H⟩⟩
                :: BlockRegions.collect fuel ⟨⟨x + bw, y⟩, W, H, bw, bh⟩ := by
            simp [BlockRegions.collect, BlockRegions.next, hdone, hcx, hcy, hne]
          rw [hstep] at hr
          rcases List.mem_cons.mp hr with rfl | hr'
          · exact ⟨by show x + bw - x < 2 * bw; omega, by show H - y < 2 * bh; omega⟩
          · exact ih (x + bw) y W H bw bh hbw hbh r hr'
        · have hstep : BlockRegions.collect (fuel + 1) ⟨⟨x, y⟩, W, H, bw, bh⟩
              = ⟨⟨x, y⟩, ⟨x + bw, y + bh⟩⟩
                :: BlockRegions.collect fuel ⟨⟨x + bw, y⟩, W, H, bw, bh⟩ := by
            simp [BlockRegions.collect, BlockRegions.next, hdone, hcx, hcy, hne]
          rw [hstep] at hr
          rcases List.mem_cons.mp hr with rfl | hr'
          · exact ⟨by show x + bw - x < 2 * bw; omega, by show y + bh - y < 2 * bh; omega⟩
          · exact ih (x + bw) y W H bw bh hbw hbh r hr'

lemma collect_len :
    ∀ (fuel x y W H bw bh : ℕ), 0 < W → 0 < bw → 0 < bh → x < W → y < H →
      (H - y) * W + (W - x) < fuel →
      (BlockRegions.collect fuel ⟨⟨x, y⟩, W, H, bw, bh⟩).length
        = max 1 ((W - x) / bw) + (max 1 ((H - y) / bh) - 1) * max 1 (W / bw) := by
  intro fuel
  induction fuel with
  | zero => intro x y W H bw bh _ _ _ _ _ hf; omega
  | succ fuel ih =>
    intro x y W H bw bh hW hbw hbh hx hy hf
    have hdone : ¬ (y = H) := by omega
    by_cases hcx : W < x + bw + bw
    · have hdx : (W - x) / bw < 2 :=
        (Nat.div_lt_iff_lt_mul hbw).mpr (by omega : W - x < 2 * bw)
      by_cases hcy : H < y + bh + bh
      · have hstep : BlockRegions.collect (fuel + 1) ⟨⟨x, y⟩, W, H, bw, bh⟩
            = ⟨⟨x, y⟩, ⟨W, H⟩⟩ :: BlockRegions.collect fuel ⟨⟨0, H⟩, W, H, bw, bh⟩ := by
          simp [BlockRegions.collect, BlockRegions.next, hdone, hcx, hcy]
        have hdy : (H - y) / bh < 2 :=
          (Nat.div_lt_iff_lt_mul hbh).mpr (by omega : H - y < 2 * bh)
        have hm1 : max 1 ((W - x) / bw) = 1 := by omega
        have hm2 : max 1 ((H - y) / bh) = 1 := by omega
        rw [hstep, collect_done, hm1, hm2]
        simp
      · have hstep : BlockRegions.collect (fuel + 1) ⟨⟨x, y⟩, W, H, bw, bh⟩
            = ⟨⟨x, y⟩, ⟨W, y + bh⟩⟩
              :: BlockRegions.collect fuel ⟨⟨0, y + bh⟩, W, H, bw, bh⟩ := by
          simp [BlockRegions.collect, BlockRegions.next, hdone, hcx, hcy]
        have hyH : y + bh < H := by omega
        have hfuel : (H - (y + bh)) * W + (W - 0) < fuel := by
          rw [Nat.sub_zero]
          have h1 : (H - (y + bh)) * W + W ≤ (H - y) * W := by
            have h2 : H - (y + bh) + 1 ≤ H - y := by omega
            calc (H - (y + bh)) * W + W = (H - (y + bh) + 1) * W := by ring
              _ ≤ (H - y) * W := Nat.mul_le_mul_right W h2
          omega
        rw [hstep]
        simp only [List.length_cons]
        rw [ih 0 (y + bh) W H bw bh hW hbw hbh hW hyH hfuel]
        have hGsplit : (H - y) / bh = (H - (y + bh)) / bh + 1 := by
          have h3 : H - y = (H - (y + bh)) + bh := by omega
          rw [h3, Nat.add_div_right _ hbh]
        have hG' : 1 ≤ (H - (y + bh)) / bh :=
          (Nat.le_div_iff_mul_le hbh).mpr (by omega : 1 * bh ≤ H - (y + bh))
        have hM : max 1 ((W - 0) / bw) = max 1 (W / bw) := by
          rw [Nat.sub_zero]
        rw [hM]
        have hmaxG : max 1 ((H - y) / bh) = (H - (y + bh)) / bh + 1 := by omega
        have hmaxG' : max 1 ((H - (y + bh)) / bh) = (H - (y + bh)) / bh := by omega
        have hmaxx : max 1 ((W - x) / bw) = 1 := by omega
        rw [hmaxG, hmaxG', hmaxx]
        have hsimp : ∀ M D : ℕ, 1 ≤ D → (M + (D - 1) * M) + 1 = 1 + (D + 1 - 1) * M := by
          intro M D hD
          have h4 : D + 1 - 1 = D := by omega
          rw [h4]
          obtain ⟨d, rfl⟩ : ∃ d, D = d + 1 := ⟨D - 1, by omega⟩
          have h5 : d + 1 - 1 = d := by omega
          rw [h5]
          ring
        exact hsimp (max 1 (W / bw)) ((H - (y + bh)) / bh) hG'
    · have hne : ¬ (x + bw = W) := by omega
      have hxd : (W - x) / bw = (W - (x + bw)) / bw + 1 := by
        have h3 : W - x = (W - (x + bw)) + bw := by omega
        rw [h3, Nat.add_div_right _ hbw]
      have hxd' : 1 ≤ (W - (x + bw)) / bw :=
        (Nat.le_div_iff_mul_le hbw).mpr (by omega : 1 * bw ≤ W - (x + bw))
      have hfuel : (H - y) * W + (W - (x + bw)) < fuel := by omega
      by_cases hcy : H < y + bh + bh
      · have hstep : BlockRegions.collect (fuel + 1) ⟨⟨x, y⟩, W, H, bw, bh⟩
            = ⟨⟨x, y⟩, ⟨x + bw, H⟩⟩
              :: BlockRegions.collect fuel ⟨⟨x + bw, y⟩, W, H, bw, bh⟩ := by
          simp [BlockRegions.collect, BlockRegions.next, hdone, hcx, hcy, hne]
        rw [hstep]
        simp only [List.length_cons]
        rw [ih (x + bw) y W H bw bh hW hbw hbh (by omega) hy hfuel]
        omega
      · have hstep : BlockRegions.collect (fuel + 1) ⟨⟨x, y⟩, W, H, bw, bh⟩
            = ⟨⟨x, y⟩, ⟨x + bw, y + bh⟩⟩
              :: BlockRegions.collect fuel ⟨⟨x + bw, y⟩, W, H, bw, bh⟩ := by
          simp [BlockRegions.collect, BlockRegions.next, hdone, hcx, hcy, hne]
        rw [hstep]
        simp only [List.length_cons]
        rw [ih (x + bw) y W H bw bh hW hbw hbh (by omega) hy hfuel]
        omega

/-- Claim C2 (counterexample): on a 63×1 image with 32×1 blocks the
partitioner emits a single region of width 63 (> 32 = blockWidth), and the
number of regions is 1, not `ceil(63/32) * ceil(1/1) = 2`. -/
theorem C2_counterexample :
    ¬ ((∀ r ∈ blockRegions 63 1 32 1,
          r.end_.x - r.start.x ≤ 32 ∧ r.end_.y - r.start.y ≤ 1)
        ∧ (blockRegions 63 1 32 1).length
            = ((63 + 32 - 1) / 32) * ((1 + 1 - 1) / 1)) := by
  decide

/-- Claim C2 (amended): for positive image and block sizes, every emitted
region has width < 2·blockWidth and height < 2·blockHeight (the last
column/row absorbs the remainder instead of being clipped), and the number
of regions is `max 1 ⌊W/bw⌋ * max 1 ⌊H/bh⌋`. -/
theorem C2_blocks_size_and_count (W H bw bh : ℕ)
    (hW : 0 < W) (hH : 0 < H) (hbw : 0 < bw) (hbh : 0 < bh) :
    (∀ r ∈ blockRegions W H bw bh,
        r.end_.x - r.start.x < 2 * bw ∧ r.end_.y - r.start.y < 2 * bh)
      ∧ (blockRegions W H bw bh).length = max 1 (W / bw) * max 1 (H / bh) := by
  constructor
  · intro r hr
    exact collect_region_size (H * W + W + 1) 0 0 W H bw bh hbw hbh r hr
  · rw [blockRegions,
      collect_len (H * W + W + 1) 0 0 W H bw bh hW hbw hbh hW hH
        (by simp only [Nat.sub_zero]; omega)]
    have h1 : max 1 ((W - 0) / bw) = max 1 (W / bw) := by rw [Nat.sub_zero]
    have h2 : max 1 ((H - 0) / bh) = max 1 (H / bh) := by rw [Nat.sub_zero]
    rw [h1, h2]
    have hG : 1 ≤ max 1 (H / bh) := le_max_left 1 _
    have h3 : 1 + (max 1 (H / bh) - 1) = max 1 (H / bh) := by omega
    calc max 1 (W / bw) + (max 1 (H / bh) - 1) * max 1 (W / bw)
        = (1 + (max 1 (H / bh) - 1)) * max 1 (W / bw) := by ring
      _ = max 1 (W / bw) * max 1 (H / bh) := by rw [h3]; ring

/-- Witness for C2 at a concrete 64×64 image with 32×32 blocks. -/
theorem C2_witness :
    (∀ r ∈ blockRegions 64 64 32 32,
        r.end_.x - r.start.x < 2 * 32 ∧ r.end_.y - r.start.y < 2 * 32)
      ∧ (blockRegions 64 64 32 32).length = max 1 (64 / 32) * max 1 (64 / 32) :=
  C2_blocks_size_and_count 64 64 32 32 (by decide) (by decide) (by decide) (by decide)

/-! ### Region sample iteration (src/lib.rs, `Region::items`) -/

/-- Embedding of `Region::items`: note that the source computes the row
stride as `self.end.x - self.start.x` (the region's own width), not the
image width, and then slices `all_items[offset..][start.x..end.x]`
(modelled by `drop`/`take`; on the inputs considered here the slices stay
in range, so no panic case arises). -/
def Region.items (r : Region) (all_items : List ℕ) : List ℕ :=
  let width := r.end_.x - r.start.x
  (List.range' r.start.y (r.end_.y - r.start.y)).flatMap fun y =>
    let offset := y * width
    ((all_items.drop offset).drop r.start.x).take (r.end_.x - r.start.x)

/-- The sample sequence the spec describes for a region: the luminances at
`(x, y)` for `startX ≤ x < endX`, `startY ≤ y < endY`, read from the
full-width luminance array with the image width as row stride. -/
def Region.itemsSpec (r : Region) (imageWidth : ℕ) (all_items : List ℕ) : List ℕ :=
  (List.range' r.start.y (r.end_.y - r.start.y)).flatMap fun y =>
    (List.range' r.start.x (r.end_.x - r.start.x)).map fun x =>
      all_items.getD (y * imageWidth + x) 0

/-- Claim C4: on a 2×2 image with luminances `[10, 20, 30, 40]` (row-major),
the partitioner with 1×2 blocks emits the region `{(1,0)..(2,2)}`; the
spec says its samples are the right column `[20, 40]`, but `Region::items`
— using the region width 1 as row stride — yields `[20, 30]`.  The block
statistics are therefore computed over the wrong pixels. -/
theorem C4_items_wrong_pixels :
    (⟨⟨1, 0⟩, ⟨2, 2⟩⟩ : Region) ∈ blockRegions 2 2 1 2
      ∧ Region.items ⟨⟨1, 0⟩, ⟨2, 2⟩⟩ [10, 20, 30, 40] = [20, 30]
      ∧ Region.itemsSpec ⟨⟨1, 0⟩, ⟨2, 2⟩⟩ 2 [10, 20, 30, 40] = [20, 40]
      ∧ Region.items ⟨⟨1, 0⟩, ⟨2, 2⟩⟩ [10, 20, 30, 40]
          ≠ Region.itemsSpec ⟨⟨1, 0⟩, ⟨2, 2⟩⟩ 2 [10, 20, 30, 40] := by
  refine ⟨by decide, by decide, by decide, by decide⟩

/-! ### Image construction (src/lib.rs, `Image::new` and the entry of
`AutomaticClahe::enhance_rgba_image`) -/

/-- `pixels.chunks(N)` for `N = 4`: full 4-byte chunks plus a shorter final
chunk when the length is not a multiple of 4. -/
def chunks4 : List ℕ → List (List ℕ)
  | [] => []
  | [a] => [[a]]
  | [a, b] => [[a, b]]
  | [a, b, c] => [[a, b, c]]
  | a :: b :: c :: d :: rest => [a, b, c, d] :: chunks4 rest

/-- The body of the luminance loop: `max(p[0], max(p[1], p[2]))`.  A chunk
with fewer than 3 bytes makes `p[2]` (or `p[1]`, `p[0]`) panic with an
index-out-of-bounds error, modelled as `none`. -/
def luminanceOfChunk : List ℕ → Option ℕ
  | p0 :: p1 :: p2 :: _ => some (max p0 (max p1 p2))
  | _ => none

/-- The luminance-extraction loop over all chunks; the first panicking
chunk aborts the whole call. -/
def luminancesOf : List (List ℕ) → Option (List ℕ)
  | [] => some []
  | c :: cs =>
    match luminanceOfChunk c, luminancesOf cs with
    | some l, some ls => some (l :: ls)
    | _, _ => none

structure Image where
  pixels : List ℕ
  width : ℕ
  height : ℕ
  luminances : List ℕ
  l_max : ℕ
  enhancement_weight_factor : ℚ

/-- Embedding of `Image::new` for RGBA (`N = 4`), the entire entry path of
`enhance_rgba_image` before any write to the buffer.  `none` models a
panic: an index-out-of-bounds in the luminance loop (buffer length ≡ 1 or
2 mod 4), or the division by zero in `luminances.len() / width` when
`width = 0`.  The `enhancement_weight_factor` division is `f32` arithmetic
in the source and cannot panic (its `l_alpha = 0` case is claim C9). -/
def Image.new (pixels : List ℕ) (width : ℕ) : Option Image :=
  match luminancesOf (chunks4 pixels) with
  | none => none
  | some lums =>
    if width = 0 then none
    else
      some
        { pixels := pixels
          width := width
          height := lums.length / width
          luminances := lums
          l_max := lums.foldl max 0
          enhancement_weight_factor :=
            ((lums.foldl max 0 : ℕ) : ℚ) / (Image.lAlphaOf lums : ℚ) }

lemma luminancesOf_chunks4_none : ∀ l : List ℕ,
    (luminancesOf (chunks4 l) = none ↔ l.length % 4 = 1 ∨ l.length % 4 = 2)
  | [] => by simp [chunks4, luminancesOf]
  | [a] => by simp [chunks4, luminancesOf, luminanceOfChunk]
  | [a, b] => by simp [chunks4, luminancesOf, luminanceOfChunk]
  | [a, b, c] => by simp [chunks4, luminancesOf, luminanceOfChunk]
  | a :: b :: c :: d :: rest => by
    have ih := luminancesOf_chunks4_none rest
    have hlen : (a :: b :: c :: d :: rest).length % 4 = rest.length % 4 := by
      simp only [List.length_cons]
      omega
    rw [hlen, ← ih]
    show (match luminanceOfChunk [a, b, c, d], luminancesOf (chunks4 rest) with
      | some l, some ls => some (l :: ls)
      | _, _ => none) = none ↔ _
    cases hr : luminancesOf (chunks4 rest) with
    | none => simp [luminanceOfChunk]
    | some ls => simp [luminanceOfChunk]

/-- Claim C3 (amended): the enhance entry performs no validation and no
`InvalidInput` error exists.  The call fails — by panic, not by a reported
error — exactly when the buffer length is ≡ 1 or 2 (mod 4), i.e. the final
chunk has fewer than 3 bytes (index out of bounds), or when `width = 0`
(division by zero computing the height).  Every other buffer is accepted
silently: a length ≡ 3 (mod 4) treats the 3 trailing bytes as a pixel, and
a multiple of 4 inconsistent with `width` just yields `height =
⌊len/4⌋ / width`. -/
theorem C3_entry_failure_iff (pixels : List ℕ) (width : ℕ) :
    (Image.new pixels width).isNone
      ↔ (pixels.length % 4 = 1 ∨ pixels.length % 4 = 2 ∨ width = 0) := by
  unfold Image.new
  cases hl : luminancesOf (chunks4 pixels) with
  | none =>
    have := (luminancesOf_chunks4_none pixels).mp hl
    simp only [Option.isNone_none]
    constructor
    · intro _
      rcases this with h | h
      · exact Or.inl h
      · exact Or.inr (Or.inl h)
    · intro _
      trivial
  | some lums =>
    have hno : ¬ (pixels.length % 4 = 1 ∨ pixels.length % 4 = 2) := by
      intro hcontr
      rw [(luminancesOf_chunks4_none pixels).mpr hcontr] at hl
      exact Option.noConfusion hl
    by_cases hw : width = 0
    · simp only [hw, if_pos rfl, Option.isNone_none]
      constructor
      · intro _
        exact Or.inr (Or.inr trivial)
      · intro _
        trivial
    · simp only [if_neg hw]
      constructor
      · intro h
        exact Option.noConfusion (Option.isNone_iff_eq_none.mp h)
      · intro h
        rcases h with h | h | h
        · exact absurd (Or.inl h) hno
        · exact absurd (Or.inr h) hno
        · exact absurd h hw

/-- Claim C3 (counterexample): a buffer of length 3 — not a multiple of the
channel count 4 — is accepted without any failure (the trailing 3 bytes
are treated as a pixel), where the claim demands an `InvalidInput`
failure. -/
theorem C3_counterexample :
    3 % 4 ≠ 0 ∧ (Image.new [7, 7, 7] 1).isSome = true := by
  constructor
  · decide
  · rfl

/-! ### Per-block lookup (src/lib.rs, `BlockCdf::enhance`, `Cdf::gamma_1`,
`Cdf::gamma_2`)

These use `powf`/`ln`, so the `f32` values are modelled as `ℝ` (with
`Real.rpow`/`Real.log`); the 256-entry CDF arrays become `Fin 256 → ℝ`. -/

/-- `f32::EPSILON` as a real number. -/
noncomputable def f32EpsR : ℝ := 1 / 2 ^ 23

/-- Embedding of `Cdf::gamma_1`: `ln(cdf[l] + ε) / 8`. -/
noncomputable def Cdf.gamma_1 (cdf : Fin 256 → ℝ) (l : Fin 256) : ℝ :=
  Real.log (cdf l + f32EpsR) / 8

/-- Embedding of `Cdf::gamma_2`: `(cdf[l] + 1) / 2`. -/
noncomputable def Cdf.gamma_2 (cdf : Fin 256 → ℝ) (l : Fin 256) : ℝ :=
  (cdf l + 1) / 2

structure BlockCdf where
  cdf : Fin 256 → ℝ
  cdf_w : Fin 256 → ℝ
  use_cdf_w : Bool
  region : Region
  l_max : ℝ

/-- Embedding of `BlockCdf::enhance`.  Note the two places where the source
deviates from the spec formula: `gamma_2` is evaluated at the constant
level `1` (`self.cdf_w.gamma_2(1)`), not at the pixel's level `l`, and the
exponent of the enhancement weight factor is `gamma_1(l)` itself, not
`1 - gamma_1(l)`. -/
noncomputable def BlockCdf.enhance (b : BlockCdf) (l : Fin 256)
    (image_l_max image_ewf : ℝ) : ℝ :=
  let l2 := image_l_max * ((l.val : ℝ) / image_l_max) ^ (Cdf.gamma_2 b.cdf_w 1)
  if b.use_cdf_w then
    let w_en := image_ewf ^ (Cdf.gamma_1 b.cdf l)
    let l1 := b.l_max * w_en * b.cdf l
    max l1 l2
  else
    l2

/-- The enhancement formula exactly as the spec states it (`gamma2`
evaluated at the pixel's own level `l`; `wEn = ewf ^ (1 - gamma1(l))`). -/
noncomputable def specEnhance (b : BlockCdf) (l : Fin 256)
    (image_l_max image_ewf : ℝ) : ℝ :=
  let gamma2 := (b.cdf_w l + 1) / 2
  let l2 := image_l_max * ((l.val : ℝ) / image_l_max) ^ gamma2
  if b.use_cdf_w then
    let gamma1 := Real.log (b.cdf l + f32EpsR) / 8
    let w_en := image_ewf ^ (1 - gamma1)
    let l1 := b.l_max * w_en * b.cdf l
    max l1 l2
  else
    l2

/-- A concrete single-branch block: all-zero `cdf`, a step `cdf_w` that is
0 at levels 0..1 and 1 above, dual gamma disabled, block `l_max = 0`. -/
noncomputable def bc0 : BlockCdf :=
  ⟨fun _ => 0, fun i => if i.val ≤ 1 then 0 else 1, false, ⟨⟨0, 0⟩, ⟨0, 0⟩⟩, 0⟩

/-- Claim C1 (counterexample): at luminance level `l = 2` in an image with
global maximum 8, the code's table value is `8 * (2/8) ^ ((cdfW[1]+1)/2) =
8 * (1/4) ^ (1/2) = 4`, while the spec formula gives
`8 * (1/4) ^ ((cdfW[2]+1)/2) = 8 * (1/4) ^ 1 = 2`: the code evaluates
`gamma_2` at the constant level 1 instead of `l`. -/
theorem C1_counterexample :
    BlockCdf.enhance bc0 2 8 0 = 4 ∧ specEnhance bc0 2 8 0 = 2
      ∧ BlockCdf.enhance bc0 2 8 0 ≠ specEnhance bc0 2 8 0 := by
  have hval1 : ((1 : Fin 256).val ≤ 1) = True := by
    rw [show (1 : Fin 256).val = 1 from rfl]
    simp
  have hval2 : ((2 : Fin 256).val ≤ 1) = False := by
    rw [show (2 : Fin 256).val = 2 from rfl]
    simp
  have hrpow : ((1 : ℝ) / 4) ^ ((1 : ℝ) / 2) = 1 / 2 := by
    rw [← Real.sqrt_eq_rpow]
    rw [show ((1 : ℝ) / 4) = ((1 : ℝ) / 2) ^ 2 by norm_num]
    exact Real.sqrt_sq (by norm_num)
  have hcode : BlockCdf.enhance bc0 2 8 0 = 4 := by
    unfold BlockCdf.enhance Cdf.gamma_2 bc0
    simp only [Bool.false_eq_true, if_false, hval1, if_true]
    rw [show ((2 : Fin 256).val : ℝ) = 2 from by norm_num]
    rw [show ((2 : ℝ) / 8) = (1 : ℝ) / 4 by norm_num]
    rw [show ((0 : ℝ) + 1) / 2 = (1 : ℝ) / 2 by norm_num]
    rw [hrpow]
    norm_num
  have hspec : specEnhance bc0 2 8 0 = 2 := by
    unfold specEnhance bc0
    simp only [Bool.false_eq_true, if_false, hval2]
    rw [show ((2 : Fin 256).val : ℝ) = 2 from by norm_num]
    rw [show ((2 : ℝ) / 8) = (1 : ℝ) / 4 by norm_num]
    rw [show (((1 : ℝ)) + 1) / 2 = (2 : ℝ) / 2 by norm_num]
    rw [show ((2 : ℝ) / 2) = (1 : ℝ) by norm_num]
    rw [Real.rpow_one]
    norm_num
  refine ⟨hcode, hspec, ?_⟩
  rw [hcode, hspec]
  norm_num

/-- Claim C1 (amended): the table value the code computes is, for every
block and level,
`l2 = globalLMax * (l / globalLMax) ^ ((cdfW[1] + 1) / 2)` — `gamma_2`
taken at the constant level 1 — and, when dual gamma is enabled,
`max(blockLMax * ewf ^ (ln(cdf[l] + ε) / 8) * cdf[l], l2)` — the exponent
is `gamma_1(l)`, not `1 - gamma_1(l)`. -/
theorem C1_enhance_formula (b : BlockCdf) (l : Fin 256)
    (image_l_max image_ewf : ℝ) :
    BlockCdf.enhance b l image_l_max image_ewf
      = if b.use_cdf_w then
          max (b.l_max * image_ewf ^ (Real.log (b.cdf l + f32EpsR) / 8) * b.cdf l)
            (image_l_max * ((l.val : ℝ) / image_l_max) ^ ((b.cdf_w 1 + 1) / 2))
        else
          image_l_max * ((l.val : ℝ) / image_l_max) ^ ((b.cdf_w 1 + 1) / 2) := by
  unfold BlockCdf.enhance Cdf.gamma_1 Cdf.gamma_2
  cases b.use_cdf_w <;> simp

/-! ### Color conversion (src/color_format.rs) -/

/-- Embedding of `rgb_to_hsv` (total version over `ℕ`; the checked variant
below shows the `usize` subtractions and divisions are all in range). The
trailing `/ 6` of the source applies to the whole `if` chain. -/
def rgb_to_hsv (r g b : ℕ) : ℕ × ℕ × ℕ :=
  let mx := max r (max g b)
  let mn := min r (min g b)
  let n := mx - mn
  let s := if mx = 0 then 0 else n * 255 / mx
  let v := mx
  let chain :=
    if n = 0 then 0
    else if mx = r then
      if g < b then 6 * 255 + g * 255 / n - b * 255 / n
      else (g - b) * 255 / n
    else if mx = g then 2 * 255 + b * 255 / n - r * 255 / n
    else 4 * 255 + r * 255 / n - g * 255 / n
  (chain / 6, s, v)

/-- Embedding of `hsv_to_rgb`; the `match h6 / 255` of the source is the
equivalent chain of equality tests, with sectors 0 and 6 falling through to
the default arm. -/
def hsv_to_rgb (h s v : ℕ) : ℕ × ℕ × ℕ :=
  if s = 0 then (v, v, v)
  else
    let h6 := h * 6
    let f := h6 % 255
    let sector := h6 / 255
    if sector = 1 then
      (v * (255 * 255 - s * f) / (255 * 255), v, v * (255 - s) / 255)
    else if sector = 2 then
      (v * (255 - s) / 255, v, v * (255 * 255 - s * (255 - f)) / (255 * 255))
    else if sector = 3 then
      (v * (255 - s) / 255, v * (255 * 255 - s * f) / (255 * 255), v)
    else if sector = 4 then
      (v * (255 * 255 - s * (255 - f)) / (255 * 255), v * (255 - s) / 255, v)
    else if sector = 5 then
      (v, v * (255 - s) / 255, v * (255 * 255 - s * f) / (255 * 255))
    else
      (v, v * (255 * 255 - s * (255 - f)) / (255 * 255), v * (255 - s) / 255)

/-- `usize` subtraction with the (debug-mode) underflow panic explicit. -/
def checkedSub (a b : ℕ) : Option ℕ := if b ≤ a then some (a - b) else none

/-- `usize` division with the division-by-zero panic explicit. -/
def checkedDiv (a b : ℕ) : Option ℕ := if b = 0 then none else some (a / b)

/-- `rgb_to_hsv` with every subtraction and division guarded: `none` would
mean an underflow or a division by zero is reached. -/
def rgb_to_hsv_checked (r g b : ℕ) : Option (ℕ × ℕ × ℕ) := do
  let mx := max r (max g b)
  let mn := min r (min g b)
  let n ← checkedSub mx mn
  let s ← if mx = 0 then some 0 else checkedDiv (n * 255) mx
  let v := mx
  let chain ←
    if n = 0 then some 0
    else if mx = r then
      if g < b then do
        let t1 ← checkedDiv (g * 255) n
        let t2 ← checkedDiv (b * 255) n
        checkedSub (6 * 255 + t1) t2
      else do
        let d ← checkedSub g b
        checkedDiv (d * 255) n
    else if mx = g then do
      let t1 ← checkedDiv (b * 255) n
      let t2 ← checkedDiv (r * 255) n
      checkedSub (2 * 255 + t1) t2
    else do
      let t1 ← checkedDiv (r * 255) n
      let t2 ← checkedDiv (g * 255) n
      checkedSub (4 * 255 + t1) t2
  some (chain / 6, s, v)

lemma div_le_div_add (A B n k : ℕ) (hn : 0 < n) (h : B ≤ A + k * n) :
    B / n ≤ A / n + k := by
  have h1 : B / n ≤ (A + k * n) / n := Nat.div_le_div_right h
  rw [Nat.add_mul_div_right A k hn] at h1
  exact h1

/-- Claim C10: for 8-bit inputs, every arithmetic step inside `rgb_to_hsv`
is well-defined — no unsigned subtraction underflows and no division by
zero occurs (the checked variant returns `some`) — and the resulting
`h`, `s`, `v` each fit in a `u8` (are `≤ 255`). -/
theorem C10_rgb_to_hsv_safe (r g b : ℕ)
    (hr : r ≤ 255) (hg : g ≤ 255) (hb : b ≤ 255) :
    rgb_to_hsv_checked r g b = some (rgb_to_hsv r g b)
      ∧ (rgb_to_hsv r g b).1 ≤ 255
      ∧ (rgb_to_hsv r g b).2.1 ≤ 255
      ∧ (rgb_to_hsv r g b).2.2 ≤ 255 := by
  simp only [rgb_to_hsv, rgb_to_hsv_checked, checkedSub, checkedDiv]
  set mx := max r (max g b) with hmxd
  set mn := min r (min g b) with hmnd
  have hmnx : mn ≤ mx := by omega
  have hv : mx ≤ 255 := by omega
  by_cases hn0 : mx - mn = 0
  · have hmn0 : mn ≤ mx := hmnx
    by_cases hmx0 : mx = 0
    · have hmne : mn = 0 := by omega
      simp [if_pos hmnx, hn0, hmne, hmx0, Option.bind_eq_bind, Option.some_bind, hv]
    · simp [if_pos hmnx, hn0, hmx0, Option.bind_eq_bind, Option.some_bind, hv]
  · have hmx0 : ¬ (mx = 0) := by omega
    have hsle : (mx - mn) * 255 / mx ≤ 255 := by
      have h := div_le_div_add 0 ((mx - mn) * 255) mx 255 (by omega)
        (by
          calc (mx - mn) * 255 ≤ mx * 255 := Nat.mul_le_mul_right 255 (by omega)
            _ = 0 + 255 * mx := by ring)
      simpa using h
    by_cases hmr : mx = r
    · by_cases hgb : g < b
      · -- max = r, g < b: sector-4/5 hue branch
        have h21 : b * 255 / (mx - mn) ≤ g * 255 / (mx - mn) + 255 :=
          div_le_div_add (g * 255) (b * 255) (mx - mn) 255 (by omega)
            (by
              calc b * 255 ≤ (g + (mx - mn)) * 255 :=
                    Nat.mul_le_mul_right 255 (by omega)
                _ = g * 255 + 255 * (mx - mn) := by ring)
        have hsub : b * 255 / (mx - mn) ≤ 6 * 255 + g * 255 / (mx - mn) := by omega
        have ht1t2 : g * 255 / (mx - mn) ≤ b * 255 / (mx - mn) :=
          Nat.div_le_div_right (Nat.mul_le_mul_right 255 (by omega))
        have hh : (6 * 255 + g * 255 / (mx - mn) - b * 255 / (mx - mn)) / 6 ≤ 255 := by
          omega
        simp only [if_pos hmnx, if_neg hn0, if_pos hmr, if_pos hgb, if_neg hmx0,
          if_pos hsub, Option.bind_eq_bind, Option.some_bind]
        exact ⟨trivial, hh, hsle, hv⟩
      · -- max = r, g ≥ b: sector-0 hue branch
        have hbg : b ≤ g := by omega
        have hch : (g - b) * 255 / (mx - mn) ≤ 255 := by
          have h := div_le_div_add 0 ((g - b) * 255) (mx - mn) 255 (by omega)
            (by
              calc (g - b) * 255 ≤ (mx - mn) * 255 :=
                    Nat.mul_le_mul_right 255 (by omega)
                _ = 0 + 255 * (mx - mn) := by ring)
          simpa using h
        have hh : (g - b) * 255 / (mx - mn) / 6 ≤ 255 := by omega
        simp only [if_pos hmnx, if_neg hn0, if_pos hmr, if_neg hgb, if_pos hbg,
          if_neg hmx0, Option.bind_eq_bind, Option.some_bind]
        exact ⟨trivial, hh, hsle, hv⟩
    · by_cases hmg : mx = g
      · -- max = g
        have h21 : r * 255 / (mx - mn) ≤ b * 255 / (mx - mn) + 255 :=
          div_le_div_add (b * 255) (r * 255) (mx - mn) 255 (by omega)
            (by
              calc r * 255 ≤ (b + (mx - mn)) * 255 :=
                    Nat.mul_le_mul_right 255 (by omega)
                _ = b * 255 + 255 * (mx - mn) := by ring)
        have h12 : b * 255 / (mx - mn) ≤ r * 255 / (mx - mn) + 255 :=
          div_le_div_add (r * 255) (b * 255) (mx - mn) 255 (by omega)
            (by
              calc b * 255 ≤ (r + (mx - mn)) * 255 :=
                    Nat.mul_le_mul_right 255 (by omega)
                _ = r * 255 + 255 * (mx - mn) := by ring)
        have hsub : r * 255 / (mx - mn) ≤ 2 * 255 + b * 255 / (mx - mn) := by omega
        have hh : (2 * 255 + b * 255 / (mx - mn) - r * 255 / (mx - mn)) / 6 ≤ 255 := by
          omega
        simp only [if_pos hmnx, if_neg hn0, if_neg hmr, if_pos hmg, if_neg hmx0,
          if_pos hsub, Option.bind_eq_bind, Option.some_bind]
        exact ⟨trivial, hh, hsle, hv⟩
      · -- max = b
        have h21 : g * 255 / (mx - mn) ≤ r * 255 / (mx - mn) + 255 :=
          div_le_div_add (r * 255) (g * 255) (mx - mn) 255 (by omega)
            (by
              calc g * 255 ≤ (r + (mx - mn)) * 255 :=
                    Nat.mul_le_mul_right 255 (by omega)
                _ = r * 255 + 255 * (mx - mn) := by ring)
        have h12 : r * 255 / (mx - mn) ≤ g * 255 / (mx - mn) + 255 :=
          div_le_div_add (g * 255) (r * 255) (mx - mn) 255 (by omega)
            (by
              calc r * 255 ≤ (g + (mx - mn)) * 255 :=
                    Nat.mul_le_mul_right 255 (by omega)
                _ = g * 255 + 255 * (mx - mn) := by ring)
        have hsub : g * 255 / (mx - mn) ≤ 4 * 255 + r * 255 / (mx - mn) := by omega
        have hh : (4 * 255 + r * 255 / (mx - mn) - g * 255 / (mx - mn)) / 6 ≤ 255 := by
          omega
        simp only [if_pos hmnx, if_neg hn0, if_neg hmr, if_neg hmg, if_neg hmx0,
          if_pos hsub, Option.bind_eq_bind, Option.some_bind]
        exact ⟨trivial, hh, hsle, hv⟩

/-- Core estimate for the reconstruction ramps `v * (65025 - s*(255-f)) / 65025`:
with `v*s = 255n - ρ` (the `s` rounding), `n*x = 255c - σ` (the hue rounding)
and `f` within 5 of `x` (the `/6` quantisation), the numerator lies within
(-390150, 455175) of `65025 * (v - n + c)`. -/
lemma ramp_core (v n c s x ρ σ δ fE : ℤ)
    (hv : v ≤ 255) (hρ0 : 0 ≤ ρ) (hρ : ρ < v)
    (hn0 : 0 < n) (hn : n ≤ 255) (hs0 : 0 ≤ s)
    (hvs : v * s = 255 * n - ρ) (hnx : n * x = 255 * c - σ)
    (hσl : -n < σ) (hσr : σ < n) (hx0 : 0 ≤ x) (hx : x ≤ 256)
    (hδl : -5 ≤ δ) (hδr : δ ≤ 5) (hfE : fE = x + δ) :
    65025 * (v - n + c) - 390150 ≤ v * (65025 - s * (255 - fE))
      ∧ v * (65025 - s * (255 - fE)) < 65025 * (v - n + c) + 455175 := by
  have hv0 : (0 : ℤ) ≤ v := le_of_lt (lt_of_le_of_lt hρ0 hρ)
  have hvs0 : (0 : ℤ) ≤ 255 * n - ρ := hvs ▸ mul_nonneg hv0 hs0
  subst hfE
  have key : v * (65025 - s * (255 - (x + δ)))
      = 65025 * (v - n + c) + (255 * ρ - 255 * σ - ρ * x + δ * (255 * n - ρ)) := by
    linear_combination (x + δ - 255) * hvs + 255 * hnx
  rw [key]
  constructor
  · nlinarith [mul_nonneg hρ0 (by linarith : (0 : ℤ) ≤ 256 - x),
      mul_nonneg (by linarith : (0 : ℤ) ≤ 5 + δ) hvs0]
  · nlinarith [mul_nonneg hρ0 hx0,
      mul_nonneg (by linarith : (0 : ℤ) ≤ 5 - δ) hvs0]

/-- `ℕ`-level two-sided bound for a ramp channel
`v * (255*255 - s * (255 - f)) / (255*255)`: it is within 6 of
`v - n + c`. -/
lemma ramp_div_bounds (v n c s f ρ : ℕ) (x σ δ : ℤ)
    (hv : v ≤ 255) (hn0 : 0 < n) (hn : n ≤ 255) (hnv : n ≤ v)
    (hρ : ρ < v) (hvs : v * s + ρ = 255 * n)
    (hnx : (n : ℤ) * x = 255 * (c : ℤ) - σ)
    (hσl : -(n : ℤ) < σ) (hσr : σ < (n : ℤ))
    (hx0 : 0 ≤ x) (hx : x ≤ 256)
    (hfx : (f : ℤ) = x + δ) (hδl : -5 ≤ δ) (hδr : δ ≤ 5) (hf255 : f ≤ 255) :
    v * (255 * 255 - s * (255 - f)) / (255 * 255) ≤ (v - n + c) + 6
      ∧ (v - n + c) ≤ v * (255 * 255 - s * (255 - f)) / (255 * 255) + 6 := by
  have hvpos : 0 < v := lt_of_le_of_lt (Nat.zero_le ρ) hρ
  have hs255 : s ≤ 255 := by
    by_contra hs
    push_neg at hs
    have h1 : v * 256 ≤ v * s := Nat.mul_le_mul_left v hs
    have h2 : 255 * n ≤ 255 * v := Nat.mul_le_mul_left 255 hnv
    omega
  have hsf : s * (255 - f) ≤ 255 * 255 := Nat.mul_le_mul hs255 (by omega)
  have hNcast : ((v * (255 * 255 - s * (255 - f)) : ℕ) : ℤ)
      = (v : ℤ) * (65025 - (s : ℤ) * (255 - (f : ℤ))) := by
    rw [Nat.cast_mul, Nat.cast_sub hsf, Nat.cast_mul, Nat.cast_mul,
      Nat.cast_sub hf255]
    norm_num
  have hcore := ramp_core (v : ℤ) (n : ℤ) (c : ℤ) (s : ℤ) x (ρ : ℤ) σ δ ((f : ℤ))
    (by exact_mod_cast hv) (by positivity) (by exact_mod_cast hρ)
    (by exact_mod_cast hn0) (by exact_mod_cast hn) (by positivity)
    (by push_cast; omega) hnx hσl hσr hx0 hx hδl hδr hfx
  have hlow : 65025 * (v - n + c) ≤ v * (255 * 255 - s * (255 - f)) + 390150 := by
    have h3 := hcore.1
    rw [← hNcast] at h3
    have h4 : ((v - n + c : ℕ) : ℤ) = (v : ℤ) - n + c := by
      rw [Nat.cast_add, Nat.cast_sub hnv]
    omega
  have hhigh : v * (255 * 255 - s * (255 - f)) < 65025 * (v - n + c) + 455175 := by
    have h3 := hcore.2
    rw [← hNcast] at h3
    have h4 : ((v - n + c : ℕ) : ℤ) = (v : ℤ) - n + c := by
      rw [Nat.cast_add, Nat.cast_sub hnv]
    omega
  omega

/-- The `v * (255 - s) / 255` channel is exactly the minimum `v - n`. -/
lemma m2_exact (v n s ρ : ℕ) (hρ : ρ < v) (hv : v ≤ 255) (hnv : n ≤ v)
    (hvs : v * s + ρ = 255 * n) :
    v * (255 - s) / 255 = v - n := by
  have hs255 : s ≤ 255 := by
    by_contra hs
    push_neg at hs
    have h1 : v * 256 ≤ v * s := Nat.mul_le_mul_left v hs
    have h2 : 255 * n ≤ 255 * v := Nat.mul_le_mul_left 255 hnv
    omega
  have hsplit : v * (255 - s) + v * s = v * 255 := by
    rw [← Nat.mul_add]
    congr 1
    omega
  omega

/-- The edge sector evaluates the ramp at `f = 252`, which keeps the
channel within 3 of `v`. -/
lemma m3_f252_bounds (v n s ρ : ℕ) (hρ : ρ < v) (hv : v ≤ 255) (hnv : n ≤ v)
    (hvs : v * s + ρ = 255 * n) :
    v - 3 ≤ v * (255 * 255 - s * (255 - 252)) / (255 * 255)
      ∧ v * (255 * 255 - s * (255 - 252)) / (255 * 255) ≤ v := by
  have hs255 : s ≤ 255 := by
    by_contra hs
    push_neg at hs
    have h1 : v * 256 ≤ v * s := Nat.mul_le_mul_left v hs
    have h2 : 255 * n ≤ 255 * v := Nat.mul_le_mul_left 255 hnv
    omega
  have hsplit : v * (255 * 255 - s * (255 - 252)) + v * (s * 3) = v * (255 * 255) := by
    rw [← Nat.mul_add]
    congr 1
    have : s * (255 - 252) = s * 3 := by norm_num
    rw [this]
    have h3 : s * 3 ≤ 255 * 255 := by omega
    omega
  have hco : v * (s * 3) = 3 * (v * s) := by ring
  have hvn : 255 * n ≤ 255 * v := Nat.mul_le_mul_left 255 hnv
  have hv255 : v * (255 * 255) = 65025 * v := by ring
  omega

lemma hsv_sector0 (h s v : ℕ) (hs : ¬ s = 0) (hsec : h * 6 / 255 = 0) :
    hsv_to_rgb h s v
      = (v, v * (255 * 255 - s * (255 - h * 6 % 255)) / (255 * 255),
          v * (255 - s) / 255) := by
  simp only [hsv_to_rgb, if_neg hs, if_neg (show ¬ (h * 6 / 255 = 1) by omega),
    if_neg (show ¬ (h * 6 / 255 = 2) by omega),
    if_neg (show ¬ (h * 6 / 255 = 3) by omega),
    if_neg (show ¬ (h * 6 / 255 = 4) by omega),
    if_neg (show ¬ (h * 6 / 255 = 5) by omega)]

lemma hsv_sector1 (h s v : ℕ) (hs : ¬ s = 0) (hsec : h * 6 / 255 = 1) :
    hsv_to_rgb h s v
      = (v * (255 * 255 - s * (h * 6 % 255)) / (255 * 255), v,
          v * (255 - s) / 255) := by
  simp only [hsv_to_rgb, if_neg hs, if_pos hsec]

lemma hsv_sector2 (h s v : ℕ) (hs : ¬ s = 0) (hsec : h * 6 / 255 = 2) :
    hsv_to_rgb h s v
      = (v * (255 - s) / 255, v,
          v * (255 * 255 - s * (255 - h * 6 % 255)) / (255 * 255)) := by
  simp only [hsv_to_rgb, if_neg hs, if_neg (show ¬ (h * 6 / 255 = 1) by omega),
    if_pos hsec]

lemma hsv_sector3 (h s v : ℕ) (hs : ¬ s = 0) (hsec : h * 6 / 255 = 3) :
    hsv_to_rgb h s v
      = (v * (255 - s) / 255, v * (255 * 255 - s * (h * 6 % 255)) / (255 * 255),
          v) := by
  simp only [hsv_to_rgb, if_neg hs, if_neg (show ¬ (h * 6 / 255 = 1) by omega),
    if_neg (show ¬ (h * 6 / 255 = 2) by omega), if_pos hsec]

lemma hsv_sector4 (h s v : ℕ) (hs : ¬ s = 0) (hsec : h * 6 / 255 = 4) :
    hsv_to_rgb h s v
      = (v * (255 * 255 - s * (255 - h * 6 % 255)) / (255 * 255),
          v * (255 - s) / 255, v) := by
  simp only [hsv_to_rgb, if_neg hs, if_neg (show ¬ (h * 6 / 255 = 1) by omega),
    if_neg (show ¬ (h * 6 / 255 = 2) by omega),
    if_neg (show ¬ (h * 6 / 255 = 3) by omega), if_pos hsec]

lemma hsv_sector5 (h s v : ℕ) (hs : ¬ s = 0) (hsec : h * 6 / 255 = 5) :
    hsv_to_rgb h s v
      = (v, v * (255 - s) / 255,
          v * (255 * 255 - s * (h * 6 % 255)) / (255 * 255)) := by
  simp only [hsv_to_rgb, if_neg hs, if_neg (show ¬ (h * 6 / 255 = 1) by omega),
    if_neg (show ¬ (h * 6 / 255 = 2) by omega),
    if_neg (show ¬ (h * 6 / 255 = 3) by omega),
    if_neg (show ¬ (h * 6 / 255 = 4) by omega), if_pos hsec]

/-- The full round trip `hsv_to_rgb (rgb_to_hsv r g b)` of the spec. -/
def roundTrip (r g b : ℕ) : ℕ × ℕ × ℕ :=
  let hsv := rgb_to_hsv r g b
  hsv_to_rgb hsv.1 hsv.2.1 hsv.2.2

/-- Each reconstructed channel is within 6 of the corresponding original. -/
def within6 (p : ℕ × ℕ × ℕ) (r g b : ℕ) : Prop :=
  p.1 ≤ r + 6 ∧ r ≤ p.1 + 6 ∧ p.2.1 ≤ g + 6 ∧ g ≤ p.2.1 + 6
    ∧ p.2.2 ≤ b + 6 ∧ b ≤ p.2.2 + 6

lemma roundtrip_case_A (r g b : ℕ) (hr : r ≤ 255) (hg : g ≤ 255) (hb : b ≤ 255)
    (hn0 : ¬ (max r (max g b) - min r (min g b) = 0))
    (hmr : max r (max g b) = r) (hgb : ¬ g < b) :
    within6 (roundTrip r g b) r g b := by
  have hvpos : 0 < max r (max g b) := by omega
  have hmx0 : ¬ (max r (max g b) = 0) := by omega
  have hmnb : min r (min g b) = b := by omega
  have hn255 : max r (max g b) - min r (min g b) ≤ 255 := by omega
  have hnv : max r (max g b) - min r (min g b) ≤ max r (max g b) := by omega
  have hnpos : 0 < max r (max g b) - min r (min g b) := by omega
  have hsρ := Nat.div_add_mod ((max r (max g b) - min r (min g b)) * 255)
    (max r (max g b))
  have hρlt : (max r (max g b) - min r (min g b)) * 255 % max r (max g b)
      < max r (max g b) := Nat.mod_lt _ hvpos
  have hvs : max r (max g b)
        * ((max r (max g b) - min r (min g b)) * 255 / max r (max g b))
      + (max r (max g b) - min r (min g b)) * 255 % max r (max g b)
      = 255 * (max r (max g b) - min r (min g b)) := by omega
  have hsne : ¬ ((max r (max g b) - min r (min g b)) * 255 / max r (max g b) = 0) := by
    intro h0
    rw [h0, Nat.mul_zero] at hvs
    omega
  have hxρ := Nat.div_add_mod ((g - b) * 255) (max r (max g b) - min r (min g b))
  have hσlt : (g - b) * 255 % (max r (max g b) - min r (min g b))
      < max r (max g b) - min r (min g b) := Nat.mod_lt _ hnpos
  have hxle : (g - b) * 255 / (max r (max g b) - min r (min g b)) ≤ 255 := by
    have h1 : (g - b) * 255 ≤ (max r (max g b) - min r (min g b)) * 255 :=
      Nat.mul_le_mul_right 255 (by omega)
    have h2 : (max r (max g b) - min r (min g b))
        * ((g - b) * 255 / (max r (max g b) - min r (min g b)))
        ≤ (max r (max g b) - min r (min g b)) * 255 := by omega
    exact Nat.le_of_mul_le_mul_left h2 hnpos
  have hhsv : rgb_to_hsv r g b
      = ((g - b) * 255 / (max r (max g b) - min r (min g b)) / 6,
          (max r (max g b) - min r (min g b)) * 255 / max r (max g b),
          max r (max g b)) := by
    simp only [rgb_to_hsv, if_neg hmx0, if_neg hn0, if_pos hmr, if_neg hgb]
  have hsec : ((g - b) * 255 / (max r (max g b) - min r (min g b)) / 6) * 6 / 255
      = 0 := by omega
  have hrt : roundTrip r g b
      = (max r (max g b),
          max r (max g b) * (255 * 255
            - ((max r (max g b) - min r (min g b)) * 255 / max r (max g b))
              * (255 - ((g - b) * 255 / (max r (max g b) - min r (min g b)) / 6)
                  * 6 % 255))
            / (255 * 255),
          max r (max g b)
            * (255 - (max r (max g b) - min r (min g b)) * 255 / max r (max g b))
            / 255) := by
    show hsv_to_rgb (rgb_to_hsv r g b).1 (rgb_to_hsv r g b).2.1
        (rgb_to_hsv r g b).2.2 = _
    rw [hhsv]
    exact hsv_sector0 _ _ _ hsne hsec
  have hm2 := m2_exact (max r (max g b)) (max r (max g b) - min r (min g b))
    ((max r (max g b) - min r (min g b)) * 255 / max r (max g b))
    ((max r (max g b) - min r (min g b)) * 255 % max r (max g b))
    hρlt (by omega) hnv hvs
  have hramp := ramp_div_bounds (max r (max g b)) (max r (max g b) - min r (min g b))
    (g - b)
    ((max r (max g b) - min r (min g b)) * 255 / max r (max g b))
    (((g - b) * 255 / (max r (max g b) - min r (min g b)) / 6) * 6 % 255)
    ((max r (max g b) - min r (min g b)) * 255 % max r (max g b))
    (((g - b) * 255 / (max r (max g b) - min r (min g b)) : ℕ) : ℤ)
    (((g - b) * 255 % (max r (max g b) - min r (min g b)) : ℕ) : ℤ)
    (-(((g - b) * 255 / (max r (max g b) - min r (min g b)) % 6 : ℕ) : ℤ))
    (by omega) hnpos hn255 hnv hρlt hvs
    (by omega)
    (by omega)
    (by omega)
    (by omega)
    (by omega)
    (by omega)
    (by omega)
    (by omega)
    (by omega)
  obtain ⟨hrp1, hrp2⟩ := hramp
  have htarget : max r (max g b) - (max r (max g b) - min r (min g b)) + (g - b)
      = g := by omega
  rw [htarget] at hrp1 hrp2
  rw [hrt]
  unfold within6
  refine ⟨?_, ?_, ?_, ?_, ?_, ?_⟩
  · show max r (max g b) ≤ r + 6
    omega
  · show r ≤ max r (max g b) + 6
    omega
  · exact hrp1
  · exact hrp2
  · show max r (max g b)
        * (255 - (max r (max g b) - min r (min g b)) * 255 / max r (max g b))
        / 255 ≤ b + 6
    omega
  · show b ≤ max r (max g b)
        * (255 - (max r (max g b) - min r (min g b)) * 255 / max r (max g b))
        / 255 + 6
    omega

lemma roundtrip_case_B (r g b : ℕ) (hr : r ≤ 255) (hg : g ≤ 255) (hb : b ≤ 255)
    (hn0 : ¬ (max r (max g b) - min r (min g b) = 0))
    (hmr : max r (max g b) = r) (hgb : g < b) :
    within6 (roundTrip r g b) r g b := by
  have hvpos : 0 < max r (max g b) := by omega
  have hmx0 : ¬ (max r (max g b) = 0) := by omega
  have hmng : min r (min g b) = g := by omega
  have hn255 : max r (max g b) - min r (min g b) ≤ 255 := by omega
  have hnv : max r (max g b) - min r (min g b) ≤ max r (max g b) := by omega
  have hnpos : 0 < max r (max g b) - min r (min g b) := by omega
  have hsρ := Nat.div_add_mod ((max r (max g b) - min r (min g b)) * 255)
    (max r (max g b))
  have hρlt : (max r (max g b) - min r (min g b)) * 255 % max r (max g b)
      < max r (max g b) := Nat.mod_lt _ hvpos
  have hvs : max r (max g b)
        * ((max r (max g b) - min r (min g b)) * 255 / max r (max g b))
      + (max r (max g b) - min r (min g b)) * 255 % max r (max g b)
      = 255 * (max r (max g b) - min r (min g b)) := by omega
  have hsne : ¬ ((max r (max g b) - min r (min g b)) * 255 / max r (max g b) = 0) := by
    intro h0
    rw [h0, Nat.mul_zero] at hvs
    omega
  have hy1 := Nat.div_add_mod (g * 255) (max r (max g b) - min r (min g b))
  have hy2 := Nat.div_add_mod (b * 255) (max r (max g b) - min r (min g b))
  have hσ1lt : g * 255 % (max r (max g b) - min r (min g b))
      < max r (max g b) - min r (min g b) := Nat.mod_lt _ hnpos
  have hσ2lt : b * 255 % (max r (max g b) - min r (min g b))
      < max r (max g b) - min r (min g b) := Nat.mod_lt _ hnpos
  have hy21 : b * 255 / (max r (max g b) - min r (min g b))
      ≤ g * 255 / (max r (max g b) - min r (min g b)) + 255 := by
    apply div_le_div_add
    · omega
    · calc b * 255 ≤ (g + (max r (max g b) - min r (min g b))) * 255 :=
            Nat.mul_le_mul_right 255 (by omega)
        _ = g * 255 + 255 * (max r (max g b) - min r (min g b)) := by ring
  have hy12 : g * 255 / (max r (max g b) - min r (min g b)) + 1
      ≤ b * 255 / (max r (max g b) - min r (min g b)) := by
    have h1 : (g * 255 + 1 * (max r (max g b) - min r (min g b)))
        / (max r (max g b) - min r (min g b))
        = g * 255 / (max r (max g b) - min r (min g b)) + 1 :=
      Nat.add_mul_div_right _ 1 hnpos
    have h2 : g * 255 + 1 * (max r (max g b) - min r (min g b)) ≤ b * 255 := by
      have h3 : g * 255 + 255 ≤ b * 255 := by
        calc g * 255 + 255 = (g + 1) * 255 := by ring
          _ ≤ b * 255 := Nat.mul_le_mul_right 255 (by omega)
      omega
    have h4 : (g * 255 + 1 * (max r (max g b) - min r (min g b)))
          / (max r (max g b) - min r (min g b))
        ≤ b * 255 / (max r (max g b) - min r (min g b)) :=
      Nat.div_le_div_right h2
    omega
  have hmul : (max r (max g b) - min r (min g b))
        * (b * 255 / (max r (max g b) - min r (min g b))
            - g * 255 / (max r (max g b) - min r (min g b)))
      + (max r (max g b) - min r (min g b))
          * (g * 255 / (max r (max g b) - min r (min g b)))
      = (max r (max g b) - min r (min g b))
          * (b * 255 / (max r (max g b) - min r (min g b))) := by
    rw [← Nat.mul_add]
    congr 1
    omega
  have hhsv : rgb_to_hsv r g b
      = ((6 * 255 + g * 255 / (max r (max g b) - min r (min g b))
            - b * 255 / (max r (max g b) - min r (min g b))) / 6,
          (max r (max g b) - min r (min g b)) * 255 / max r (max g b),
          max r (max g b)) := by
    simp only [rgb_to_hsv, if_neg hmx0, if_neg hn0, if_pos hmr, if_pos hgb]
  by_cases hsec5 : (6 * 255 + g * 255 / (max r (max g b) - min r (min g b))
      - b * 255 / (max r (max g b) - min r (min g b))) / 6 * 6 / 255 = 5
  · -- sector 5: r and g exact-ish, b via the falling ramp
    have hrt : roundTrip r g b
        = (max r (max g b),
            max r (max g b)
              * (255 - (max r (max g b) - min r (min g b)) * 255 / max r (max g b))
              / 255,
            max r (max g b) * (255 * 255
              - ((max r (max g b) - min r (min g b)) * 255 / max r (max g b))
                * ((6 * 255 + g * 255 / (max r (max g b) - min r (min g b))
                    - b * 255 / (max r (max g b) - min r (min g b))) / 6 * 6 % 255))
              / (255 * 255)) := by
      show hsv_to_rgb (rgb_to_hsv r g b).1 (rgb_to_hsv r g b).2.1
          (rgb_to_hsv r g b).2.2 = _
      rw [hhsv]
      exact hsv_sector5 _ _ _ hsne hsec5
    have hm2 := m2_exact (max r (max g b)) (max r (max g b) - min r (min g b))
      ((max r (max g b) - min r (min g b)) * 255 / max r (max g b))
      ((max r (max g b) - min r (min g b)) * 255 % max r (max g b))
      hρlt (by omega) hnv hvs
    have hramp := ramp_div_bounds (max r (max g b))
      (max r (max g b) - min r (min g b))
      (b - g)
      ((max r (max g b) - min r (min g b)) * 255 / max r (max g b))
      (255 - (6 * 255 + g * 255 / (max r (max g b) - min r (min g b))
          - b * 255 / (max r (max g b) - min r (min g b))) / 6 * 6 % 255)
      ((max r (max g b) - min r (min g b)) * 255 % max r (max g b))
      ((b * 255 / (max r (max g b) - min r (min g b))
          - g * 255 / (max r (max g b) - min r (min g b)) : ℕ) : ℤ)
      (((b * 255 % (max r (max g b) - min r (min g b)) : ℕ) : ℤ)
          - ((g * 255 % (max r (max g b) - min r (min g b)) : ℕ) : ℤ))
      (((6 * 255 + g * 255 / (max r (max g b) - min r (min g b))
          - b * 255 / (max r (max g b) - min r (min g b))) % 6 : ℕ) : ℤ)
      (by omega) hnpos hn255 hnv hρlt hvs
      (by omega)
      (by omega)
      (by omega)
      (by omega)
      (by omega)
      (by omega)
      (by omega)
      (by omega)
      (by omega)
    have hconv : 255 - (255 - (6 * 255 + g * 255
          / (max r (max g b) - min r (min g b))
          - b * 255 / (max r (max g b) - min r (min g b))) / 6 * 6 % 255)
        = (6 * 255 + g * 255 / (max r (max g b) - min r (min g b))
          - b * 255 / (max r (max g b) - min r (min g b))) / 6 * 6 % 255 := by
      omega
    rw [hconv] at hramp
    obtain ⟨hrp1, hrp2⟩ := hramp
    have htarget : max r (max g b) - (max r (max g b) - min r (min g b)) + (b - g)
        = b := by omega
    rw [htarget] at hrp1 hrp2
    rw [hrt]
    unfold within6
    refine ⟨?_, ?_, ?_, ?_, ?_, ?_⟩
    · show max r (max g b) ≤ r + 6
      omega
    · show r ≤ max r (max g b) + 6
      omega
    · show max r (max g b)
          * (255 - (max r (max g b) - min r (min g b)) * 255 / max r (max g b))
          / 255 ≤ g + 6
      omega
    · show g ≤ max r (max g b)
          * (255 - (max r (max g b) - min r (min g b)) * 255 / max r (max g b))
          / 255 + 6
      omega
    · exact hrp1
    · exact hrp2
  · -- sector 4: h6 = 1272, f = 252
    have hsec4 : (6 * 255 + g * 255 / (max r (max g b) - min r (min g b))
        - b * 255 / (max r (max g b) - min r (min g b))) / 6 * 6 / 255 = 4 := by
      omega
    have hf252 : (6 * 255 + g * 255 / (max r (max g b) - min r (min g b))
        - b * 255 / (max r (max g b) - min r (min g b))) / 6 * 6 % 255 = 252 := by
      omega
    have hrt : roundTrip r g b
        = (max r (max g b) * (255 * 255
            - ((max r (max g b) - min r (min g b)) * 255 / max r (max g b))
              * (255 - (6 * 255 + g * 255 / (max r (max g b) - min r (min g b))
                  - b * 255 / (max r (max g b) - min r (min g b))) / 6 * 6 % 255))
            / (255 * 255),
            max r (max g b)
              * (255 - (max r (max g b) - min r (min g b)) * 255 / max r (max g b))
              / 255,
            max r (max g b)) := by
      show hsv_to_rgb (rgb_to_hsv r g b).1 (rgb_to_hsv r g b).2.1
          (rgb_to_hsv r g b).2.2 = _
      rw [hhsv]
      exact hsv_sector4 _ _ _ hsne hsec4
    have hm2 := m2_exact (max r (max g b)) (max r (max g b) - min r (min g b))
      ((max r (max g b) - min r (min g b)) * 255 / max r (max g b))
      ((max r (max g b) - min r (min g b)) * 255 % max r (max g b))
      hρlt (by omega) hnv hvs
    have h252 := m3_f252_bounds (max r (max g b)) (max r (max g b) - min r (min g b))
      ((max r (max g b) - min r (min g b)) * 255 / max r (max g b))
      ((max r (max g b) - min r (min g b)) * 255 % max r (max g b))
      hρlt (by omega) hnv hvs
    have hp : (max r (max g b) - min r (min g b)) * 253
        ≤ (max r (max g b) - min r (min g b))
            * (b * 255 / (max r (max g b) - min r (min g b))
                - g * 255 / (max r (max g b) - min r (min g b))) :=
      Nat.mul_le_mul_left _ (by omega)
    rw [hrt]
    unfold within6
    refine ⟨?_, ?_, ?_, ?_, ?_, ?_⟩
    · show max r (max g b) * (255 * 255
            - ((max r (max g b) - min r (min g b)) * 255 / max r (max g b))
              * (255 - (6 * 255 + g * 255 / (max r (max g b) - min r (min g b))
                  - b * 255 / (max r (max g b) - min r (min g b))) / 6 * 6 % 255))
            / (255 * 255) ≤ r + 6
      rw [hf252]
      omega
    · show r ≤ max r (max g b) * (255 * 255
            - ((max r (max g b) - min r (min g b)) * 255 / max r (max g b))
              * (255 - (6 * 255 + g * 255 / (max r (max g b) - min r (min g b))
                  - b * 255 / (max r (max g b) - min r (min g b))) / 6 * 6 % 255))
            / (255 * 255) + 6
      rw [hf252]
      omega
    · show max r (max g b)
          * (255 - (max r (max g b) - min r (min g b)) * 255 / max r (max g b))
          / 255 ≤ g + 6
      omega
    · show g ≤ max r (max g b)
          * (255 - (max r (max g b) - min r (min g b)) * 255 / max r (max g b))
          / 255 + 6
      omega
    · show max r (max g b) ≤ b + 6
      omega
    · show b ≤ max r (max g b) + 6
      omega

lemma roundtrip_case_C (r g b : ℕ) (hr : r ≤ 255) (hg : g ≤ 255) (hb : b ≤ 255)
    (hn0 : ¬ (max r (max g b) - min r (min g b) = 0))
    (hmr : ¬ (max r (max g b) = r)) (hmg : max r (max g b) = g) :
    within6 (roundTrip r g b) r g b := by
  have hvpos : 0 < max r (max g b) := by omega
  have hmx0 : ¬ (max r (max g b) = 0) := by omega
  have hn255 : max r (max g b) - min r (min g b) ≤ 255 := by omega
  have hnv : max r (max g b) - min r (min g b) ≤ max r (max g b) := by omega
  have hnpos : 0 < max r (max g b) - min r (min g b) := by omega
  have hsρ := Nat.div_add_mod ((max r (max g b) - min r (min g b)) * 255) (max r (max g b))
  have hρlt : (max r (max g b) - min r (min g b)) * 255 % max r (max g b) < max r (max g b) := Nat.mod_lt _ hvpos
  have hvs : max r (max g b) * ((max r (max g b) - min r (min g b)) * 255 / max r (max g b)) + (max r (max g b) - min r (min g b)) * 255 % max r (max g b) = 255 * (max r (max g b) - min r (min g b)) := by omega
  have hsne : ¬ ((max r (max g b) - min r (min g b)) * 255 / max r (max g b) = 0) := by
    intro h0
    rw [h0, Nat.mul_zero] at hvs
    omega
  have hyb := Nat.div_add_mod (b * 255) (max r (max g b) - min r (min g b))
  have hyr := Nat.div_add_mod (r * 255) (max r (max g b) - min r (min g b))
  have hσblt : b * 255 % (max r (max g b) - min r (min g b)) < (max r (max g b) - min r (min g b)) := Nat.mod_lt _ hnpos
  have hσrlt : r * 255 % (max r (max g b) - min r (min g b)) < (max r (max g b) - min r (min g b)) := Nat.mod_lt _ hnpos
  have hybr : b * 255 / (max r (max g b) - min r (min g b)) ≤ r * 255 / (max r (max g b) - min r (min g b)) + 255 := by
    apply div_le_div_add
    · omega
    · calc b * 255 ≤ (r + (max r (max g b) - min r (min g b))) * 255 := Nat.mul_le_mul_right 255 (by omega)
        _ = r * 255 + 255 * (max r (max g b) - min r (min g b)) := by ring
  have hyrb : r * 255 / (max r (max g b) - min r (min g b)) ≤ b * 255 / (max r (max g b) - min r (min g b)) + 255 := by
    apply div_le_div_add
    · omega
    · calc r * 255 ≤ (b + (max r (max g b) - min r (min g b))) * 255 := Nat.mul_le_mul_right 255 (by omega)
        _ = b * 255 + 255 * (max r (max g b) - min r (min g b)) := by ring
  have hhsv : rgb_to_hsv r g b
      = ((2 * 255 + b * 255 / (max r (max g b) - min r (min g b)) - r * 255 / (max r (max g b) - min r (min g b))) / 6, (max r (max g b) - min r (min g b)) * 255 / max r (max g b), max r (max g b)) := by
    simp only [rgb_to_hsv, if_neg hmx0, if_neg hn0, if_neg hmr, if_pos hmg]
  have hm2 := m2_exact (max r (max g b)) ((max r (max g b) - min r (min g b))) ((max r (max g b) - min r (min g b)) * 255 / max r (max g b)) ((max r (max g b) - min r (min g b)) * 255 % max r (max g b)) hρlt (by omega) hnv hvs
  by_cases hsec1 : (2 * 255 + b * 255 / (max r (max g b) - min r (min g b)) - r * 255 / (max r (max g b) - min r (min g b))) / 6 * 6 / 255 = 1
  · -- sector 1: falling ramp on the r channel
    have hrb : b < r := by
      rcases Nat.lt_or_ge b r with h | h
      · exact h
      · exfalso
        have hyy : r * 255 / (max r (max g b) - min r (min g b)) ≤ b * 255 / (max r (max g b) - min r (min g b)) := Nat.div_le_div_right (Nat.mul_le_mul_right 255 h)
        omega
    have hmnb : min r (min g b) = b := by omega
    have hyy : b * 255 / (max r (max g b) - min r (min g b)) ≤ r * 255 / (max r (max g b) - min r (min g b)) := Nat.div_le_div_right (Nat.mul_le_mul_right 255 (by omega))
    have hmul : (max r (max g b) - min r (min g b)) * (r * 255 / (max r (max g b) - min r (min g b)) - b * 255 / (max r (max g b) - min r (min g b))) + (max r (max g b) - min r (min g b)) * (b * 255 / (max r (max g b) - min r (min g b))) = (max r (max g b) - min r (min g b)) * (r * 255 / (max r (max g b) - min r (min g b))) := by
      rw [← Nat.mul_add]
      congr 1
      omega
    have hrt : roundTrip r g b
        = (max r (max g b) * (255 * 255 - (max r (max g b) - min r (min g b)) * 255 / max r (max g b) * ((2 * 255 + b * 255 / (max r (max g b) - min r (min g b)) - r * 255 / (max r (max g b) - min r (min g b))) / 6 * 6 % 255)) / (255 * 255), max r (max g b), max r (max g b) * (255 - (max r (max g b) - min r (min g b)) * 255 / max r (max g b)) / 255) := by
      show hsv_to_rgb (rgb_to_hsv r g b).1 (rgb_to_hsv r g b).2.1
          (rgb_to_hsv r g b).2.2 = _
      rw [hhsv]
      exact hsv_sector1 _ _ _ hsne hsec1
    have hramp := ramp_div_bounds (max r (max g b)) ((max r (max g b) - min r (min g b))) (r - b) ((max r (max g b) - min r (min g b)) * 255 / max r (max g b))
      (255 - (2 * 255 + b * 255 / (max r (max g b) - min r (min g b)) - r * 255 / (max r (max g b) - min r (min g b))) / 6 * 6 % 255) ((max r (max g b) - min r (min g b)) * 255 % max r (max g b))
      (((r * 255 / (max r (max g b) - min r (min g b)) - b * 255 / (max r (max g b) - min r (min g b)) : ℕ)) : ℤ)
      (((r * 255 % (max r (max g b) - min r (min g b)) : ℕ) : ℤ) - ((b * 255 % (max r (max g b) - min r (min g b)) : ℕ) : ℤ))
      ((((2 * 255 + b * 255 / (max r (max g b) - min r (min g b)) - r * 255 / (max r (max g b) - min r (min g b))) % 6 : ℕ)) : ℤ)
      (by omega) hnpos hn255 hnv hρlt hvs
      (by omega) (by omega) (by omega) (by omega) (by omega)
      (by omega) (by omega) (by omega) (by omega)
    have hconv : 255 - (255 - (2 * 255 + b * 255 / (max r (max g b) - min r (min g b)) - r * 255 / (max r (max g b) - min r (min g b))) / 6 * 6 % 255) = (2 * 255 + b * 255 / (max r (max g b) - min r (min g b)) - r * 255 / (max r (max g b) - min r (min g b))) / 6 * 6 % 255 := by omega
    rw [hconv] at hramp
    obtain ⟨hrp1, hrp2⟩ := hramp
    have htarget : max r (max g b) - (max r (max g b) - min r (min g b)) + (r - b) = r := by omega
    rw [htarget] at hrp1 hrp2
    rw [hrt]
    unfold within6
    refine ⟨?_, ?_, ?_, ?_, ?_, ?_⟩
    · exact hrp1
    · exact hrp2
    · show max r (max g b) ≤ g + 6
      omega
    · show g ≤ max r (max g b) + 6
      omega
    · show max r (max g b) * (255 - (max r (max g b) - min r (min g b)) * 255 / max r (max g b)) / 255 ≤ b + 6
      omega
    · show b ≤ max r (max g b) * (255 - (max r (max g b) - min r (min g b)) * 255 / max r (max g b)) / 255 + 6
      omega
  · by_cases hsec2 : (2 * 255 + b * 255 / (max r (max g b) - min r (min g b)) - r * 255 / (max r (max g b) - min r (min g b))) / 6 * 6 / 255 = 2
    · -- sector 2: rising ramp on the b channel
      have hbr : r ≤ b := by
        rcases Nat.lt_or_ge b r with h | h
        · exfalso
          have hyy : b * 255 / (max r (max g b) - min r (min g b)) ≤ r * 255 / (max r (max g b) - min r (min g b)) :=
            Nat.div_le_div_right (Nat.mul_le_mul_right 255 (by omega))
          have heq : r * 255 / (max r (max g b) - min r (min g b)) = b * 255 / (max r (max g b) - min r (min g b)) := by omega
          rw [heq] at hyr
          omega
        · exact h
      have hmnr : min r (min g b) = r := by omega
      have hyy : r * 255 / (max r (max g b) - min r (min g b)) ≤ b * 255 / (max r (max g b) - min r (min g b)) := Nat.div_le_div_right (Nat.mul_le_mul_right 255 (by omega))
      have hmul : (max r (max g b) - min r (min g b)) * (b * 255 / (max r (max g b) - min r (min g b)) - r * 255 / (max r (max g b) - min r (min g b))) + (max r (max g b) - min r (min g b)) * (r * 255 / (max r (max g b) - min r (min g b))) = (max r (max g b) - min r (min g b)) * (b * 255 / (max r (max g b) - min r (min g b))) := by
        rw [← Nat.mul_add]
        congr 1
        omega
      have hrt : roundTrip r g b
          = (max r (max g b) * (255 - (max r (max g b) - min r (min g b)) * 255 / max r (max g b)) / 255, max r (max g b), max r (max g b) * (255 * 255 - (max r (max g b) - min r (min g b)) * 255 / max r (max g b) * (255 - (2 * 255 + b * 255 / (max r (max g b) - min r (min g b)) - r * 255 / (max r (max g b) - min r (min g b))) / 6 * 6 % 255)) / (255 * 255)) := by
        show hsv_to_rgb (rgb_to_hsv r g b).1 (rgb_to_hsv r g b).2.1
            (rgb_to_hsv r g b).2.2 = _
        rw [hhsv]
        exact hsv_sector2 _ _ _ hsne hsec2
      have hramp := ramp_div_bounds (max r (max g b)) ((max r (max g b) - min r (min g b))) (b - r) ((max r (max g b) - min r (min g b)) * 255 / max r (max g b))
        ((2 * 255 + b * 255 / (max r (max g b) - min r (min g b)) - r * 255 / (max r (max g b) - min r (min g b))) / 6 * 6 % 255) ((max r (max g b) - min r (min g b)) * 255 % max r (max g b))
        (((b * 255 / (max r (max g b) - min r (min g b)) - r * 255 / (max r (max g b) - min r (min g b)) : ℕ)) : ℤ)
        (((b * 255 % (max r (max g b) - min r (min g b)) : ℕ) : ℤ) - ((r * 255 % (max r (max g b) - min r (min g b)) : ℕ) : ℤ))
        (-(((2 * 255 + b * 255 / (max r (max g b) - min r (min g b)) - r * 255 / (max r (max g b) - min r (min g b))) % 6 : ℕ) : ℤ))
        (by omega) hnpos hn255 hnv hρlt hvs
        (by omega) (by omega) (by omega) (by omega) (by omega)
        (by omega) (by omega) (by omega) (by omega)
      obtain ⟨hrp1, hrp2⟩ := hramp
      have htarget : max r (max g b) - (max r (max g b) - min r (min g b)) + (b - r) = b := by omega
      rw [htarget] at hrp1 hrp2
      rw [hrt]
      unfold within6
      refine ⟨?_, ?_, ?_, ?_, ?_, ?_⟩
      · show max r (max g b) * (255 - (max r (max g b) - min r (min g b)) * 255 / max r (max g b)) / 255 ≤ r + 6
        omega
      · show r ≤ max r (max g b) * (255 - (max r (max g b) - min r (min g b)) * 255 / max r (max g b)) / 255 + 6
        omega
      · show max r (max g b) ≤ g + 6
        omega
      · show g ≤ max r (max g b) + 6
        omega
      · exact hrp1
      · exact hrp2
    · -- sector 0 edge: h6 = 252
      have hsec0 : (2 * 255 + b * 255 / (max r (max g b) - min r (min g b)) - r * 255 / (max r (max g b) - min r (min g b))) / 6 * 6 / 255 = 0 := by omega
      have hf252 : (2 * 255 + b * 255 / (max r (max g b) - min r (min g b)) - r * 255 / (max r (max g b) - min r (min g b))) / 6 * 6 % 255 = 252 := by omega
      have hrb : b < r := by
        rcases Nat.lt_or_ge b r with h | h
        · exact h
        · exfalso
          have hyy : r * 255 / (max r (max g b) - min r (min g b)) ≤ b * 255 / (max r (max g b) - min r (min g b)) := Nat.div_le_div_right (Nat.mul_le_mul_right 255 h)
          omega
      have hmnb : min r (min g b) = b := by omega
      have hyy : b * 255 / (max r (max g b) - min r (min g b)) ≤ r * 255 / (max r (max g b) - min r (min g b)) := Nat.div_le_div_right (Nat.mul_le_mul_right 255 (by omega))
      have hmul : (max r (max g b) - min r (min g b)) * (r * 255 / (max r (max g b) - min r (min g b)) - b * 255 / (max r (max g b) - min r (min g b))) + (max r (max g b) - min r (min g b)) * (b * 255 / (max r (max g b) - min r (min g b))) = (max r (max g b) - min r (min g b)) * (r * 255 / (max r (max g b) - min r (min g b))) := by
        rw [← Nat.mul_add]
        congr 1
        omega
      have hp : (max r (max g b) - min r (min g b)) * 253 ≤ (max r (max g b) - min r (min g b)) * (r * 255 / (max r (max g b) - min r (min g b)) - b * 255 / (max r (max g b) - min r (min g b))) :=
        Nat.mul_le_mul_left _ (by omega)
      have h252 := m3_f252_bounds (max r (max g b)) ((max r (max g b) - min r (min g b))) ((max r (max g b) - min r (min g b)) * 255 / max r (max g b)) ((max r (max g b) - min r (min g b)) * 255 % max r (max g b)) hρlt (by omega) hnv hvs
      have hrt : roundTrip r g b
          = (max r (max g b), max r (max g b) * (255 * 255 - (max r (max g b) - min r (min g b)) * 255 / max r (max g b) * (255 - (2 * 255 + b * 255 / (max r (max g b) - min r (min g b)) - r * 255 / (max r (max g b) - min r (min g b))) / 6 * 6 % 255)) / (255 * 255), max r (max g b) * (255 - (max r (max g b) - min r (min g b)) * 255 / max r (max g b)) / 255) := by
        show hsv_to_rgb (rgb_to_hsv r g b).1 (rgb_to_hsv r g b).2.1
            (rgb_to_hsv r g b).2.2 = _
        rw [hhsv]
        exact hsv_sector0 _ _ _ hsne hsec0
      rw [hrt]
      unfold within6
      refine ⟨?_, ?_, ?_, ?_, ?_, ?_⟩
      · show max r (max g b) ≤ r + 6
        omega
      · show r ≤ max r (max g b) + 6
        omega
      · show max r (max g b) * (255 * 255 - (max r (max g b) - min r (min g b)) * 255 / max r (max g b) * (255 - (2 * 255 + b * 255 / (max r (max g b) - min r (min g b)) - r * 255 / (max r (max g b) - min r (min g b))) / 6 * 6 % 255)) / (255 * 255) ≤ g + 6
        rw [hf252]
        omega
      · show g ≤ max r (max g b) * (255 * 255 - (max r (max g b) - min r (min g b)) * 255 / max r (max g b) * (255 - (2 * 255 + b * 255 / (max r (max g b) - min r (min g b)) - r * 255 / (max r (max g b) - min r (min g b))) / 6 * 6 % 255)) / (255 * 255) + 6
        rw [hf252]
        omega
      · show max r (max g b) * (255 - (max r (max g b) - min r (min g b)) * 255 / max r (max g b)) / 255 ≤ b + 6
        omega
      · show b ≤ max r (max g b) * (255 - (max r (max g b) - min r (min g b)) * 255 / max r (max g b)) / 255 + 6
        omega

lemma roundtrip_case_D (r g b : ℕ) (hr : r ≤ 255) (hg : g ≤ 255) (hb : b ≤ 255)
    (hn0 : ¬ (max r (max g b) - min r (min g b) = 0))
    (hmr : ¬ (max r (max g b) = r)) (hmg : ¬ (max r (max g b) = g)) :
    within6 (roundTrip r g b) r g b := by
  have hvpos : 0 < max r (max g b) := by omega
  have hmx0 : ¬ (max r (max g b) = 0) := by omega
  have hn255 : max r (max g b) - min r (min g b) ≤ 255 := by omega
  have hnv : max r (max g b) - min r (min g b) ≤ max r (max g b) := by omega
  have hnpos : 0 < max r (max g b) - min r (min g b) := by omega
  have hsρ := Nat.div_add_mod ((max r (max g b) - min r (min g b)) * 255) (max r (max g b))
  have hρlt : (max r (max g b) - min r (min g b)) * 255 % max r (max g b) < max r (max g b) := Nat.mod_lt _ hvpos
  have hvs : max r (max g b) * ((max r (max g b) - min r (min g b)) * 255 / max r (max g b)) + (max r (max g b) - min r (min g b)) * 255 % max r (max g b) = 255 * (max r (max g b) - min r (min g b)) := by omega
  have hsne : ¬ ((max r (max g b) - min r (min g b)) * 255 / max r (max g b) = 0) := by
    intro h0
    rw [h0, Nat.mul_zero] at hvs
    omega
  have hygp := Nat.div_add_mod (g * 255) (max r (max g b) - min r (min g b))
  have hyrp := Nat.div_add_mod (r * 255) (max r (max g b) - min r (min g b))
  have hσglt : g * 255 % (max r (max g b) - min r (min g b)) < (max r (max g b) - min r (min g b)) := Nat.mod_lt _ hnpos
  have hσrlt : r * 255 % (max r (max g b) - min r (min g b)) < (max r (max g b) - min r (min g b)) := Nat.mod_lt _ hnpos
  have hygr : g * 255 / (max r (max g b) - min r (min g b)) ≤ r * 255 / (max r (max g b) - min r (min g b)) + 255 := by
    apply div_le_div_add
    · omega
    · calc g * 255 ≤ (r + (max r (max g b) - min r (min g b))) * 255 := Nat.mul_le_mul_right 255 (by omega)
        _ = r * 255 + 255 * (max r (max g b) - min r (min g b)) := by ring
  have hyrg : r * 255 / (max r (max g b) - min r (min g b)) ≤ g * 255 / (max r (max g b) - min r (min g b)) + 255 := by
    apply div_le_div_add
    · omega
    · calc r * 255 ≤ (g + (max r (max g b) - min r (min g b))) * 255 := Nat.mul_le_mul_right 255 (by omega)
        _ = g * 255 + 255 * (max r (max g b) - min r (min g b)) := by ring
  have hhsv : rgb_to_hsv r g b
      = ((4 * 255 + r * 255 / (max r (max g b) - min r (min g b)) - g * 255 / (max r (max g b) - min r (min g b))) / 6, (max r (max g b) - min r (min g b)) * 255 / max r (max g b), max r (max g b)) := by
    simp only [rgb_to_hsv, if_neg hmx0, if_neg hn0, if_neg hmr, if_neg hmg]
  have hm2 := m2_exact (max r (max g b)) ((max r (max g b) - min r (min g b))) ((max r (max g b) - min r (min g b)) * 255 / max r (max g b)) ((max r (max g b) - min r (min g b)) * 255 % max r (max g b)) hρlt (by omega) hnv hvs
  by_cases hsec3 : (4 * 255 + r * 255 / (max r (max g b) - min r (min g b)) - g * 255 / (max r (max g b) - min r (min g b))) / 6 * 6 / 255 = 3
  · -- sector 3: falling ramp on the g channel
    have hrg : r < g := by
      rcases Nat.lt_or_ge r g with h | h
      · exact h
      · exfalso
        have hyy : g * 255 / (max r (max g b) - min r (min g b)) ≤ r * 255 / (max r (max g b) - min r (min g b)) := Nat.div_le_div_right (Nat.mul_le_mul_right 255 h)
        omega
    have hmnr : min r (min g b) = r := by omega
    have hyy : r * 255 / (max r (max g b) - min r (min g b)) ≤ g * 255 / (max r (max g b) - min r (min g b)) := Nat.div_le_div_right (Nat.mul_le_mul_right 255 (by omega))
    have hmul : (max r (max g b) - min r (min g b)) * (g * 255 / (max r (max g b) - min r (min g b)) - r * 255 / (max r (max g b) - min r (min g b))) + (max r (max g b) - min r (min g b)) * (r * 255 / (max r (max g b) - min r (min g b))) = (max r (max g b) - min r (min g b)) * (g * 255 / (max r (max g b) - min r (min g b))) := by
      rw [← Nat.mul_add]
      congr 1
      omega
    have hrt : roundTrip r g b
        = (max r (max g b) * (255 - (max r (max g b) - min r (min g b)) * 255 / max r (max g b)) / 255, max r (max g b) * (255 * 255 - (max r (max g b) - min r (min g b)) * 255 / max r (max g b) * ((4 * 255 + r * 255 / (max r (max g b) - min r (min g b)) - g * 255 / (max r (max g b) - min r (min g b))) / 6 * 6 % 255)) / (255 * 255), max r (max g b)) := by
      show hsv_to_rgb (rgb_to_hsv r g b).1 (rgb_to_hsv r g b).2.1
          (rgb_to_hsv r g b).2.2 = _
      rw [hhsv]
      exact hsv_sector3 _ _ _ hsne hsec3
    have hramp := ramp_div_bounds (max r (max g b)) ((max r (max g b) - min r (min g b))) (g - r) ((max r (max g b) - min r (min g b)) * 255 / max r (max g b))
      (255 - (4 * 255 + r * 255 / (max r (max g b) - min r (min g b)) - g * 255 / (max r (max g b) - min r (min g b))) / 6 * 6 % 255) ((max r (max g b) - min r (min g b)) * 255 % max r (max g b))
      (((g * 255 / (max r (max g b) - min r (min g b)) - r * 255 / (max r (max g b) - min r (min g b)) : ℕ)) : ℤ)
      (((g * 255 % (max r (max g b) - min r (min g b)) : ℕ) : ℤ) - ((r * 255 % (max r (max g b) - min r (min g b)) : ℕ) : ℤ))
      ((((4 * 255 + r * 255 / (max r (max g b) - min r (min g b)) - g * 255 / (max r (max g b) - min r (min g b))) % 6 : ℕ)) : ℤ)
      (by omega) hnpos hn255 hnv hρlt hvs
      (by omega) (by omega) (by omega) (by omega) (by omega)
      (by omega) (by omega) (by omega) (by omega)
    have hconv : 255 - (255 - (4 * 255 + r * 255 / (max r (max g b) - min r (min g b)) - g * 255 / (max r (max g b) - min r (min g b))) / 6 * 6 % 255) = (4 * 255 + r * 255 / (max r (max g b) - min r (min g b)) - g * 255 / (max r (max g b) - min r (min g b))) / 6 * 6 % 255 := by omega
    rw [hconv] at hramp
    obtain ⟨hrp1, hrp2⟩ := hramp
    have htarget : max r (max g b) - (max r (max g b) - min r (min g b)) + (g - r) = g := by omega
    rw [htarget] at hrp1 hrp2
    rw [hrt]
    unfold within6
    refine ⟨?_, ?_, ?_, ?_, ?_, ?_⟩
    · show max r (max g b) * (255 - (max r (max g b) - min r (min g b)) * 255 / max r (max g b)) / 255 ≤ r + 6
      omega
    · show r ≤ max r (max g b) * (255 - (max r (max g b) - min r (min g b)) * 255 / max r (max g b)) / 255 + 6
      omega
    · exact hrp1
    · exact hrp2
    · show max r (max g b) ≤ b + 6
      omega
    · show b ≤ max r (max g b) + 6
      omega
  · by_cases hsec4 : (4 * 255 + r * 255 / (max r (max g b) - min r (min g b)) - g * 255 / (max r (max g b) - min r (min g b))) / 6 * 6 / 255 = 4
    · -- sector 4: rising ramp on the r channel
      have hgr : g ≤ r := by
        rcases Nat.lt_or_ge r g with h | h
        · exfalso
          have hyy : r * 255 / (max r (max g b) - min r (min g b)) ≤ g * 255 / (max r (max g b) - min r (min g b)) :=
            Nat.div_le_div_right (Nat.mul_le_mul_right 255 (by omega))
          have heq : g * 255 / (max r (max g b) - min r (min g b)) = r * 255 / (max r (max g b) - min r (min g b)) := by omega
          rw [heq] at hygp
          omega
        · exact h
      have hmng : min r (min g b) = g := by omega
      have hyy : g * 255 / (max r (max g b) - min r (min g b)) ≤ r * 255 / (max r (max g b) - min r (min g b)) := Nat.div_le_div_right (Nat.mul_le_mul_right 255 (by omega))
      have hmul : (max r (max g b) - min r (min g b)) * (r * 255 / (max r (max g b) - min r (min g b)) - g * 255 / (max r (max g b) - min r (min g b))) + (max r (max g b) - min r (min g b)) * (g * 255 / (max r (max g b) - min r (min g b))) = (max r (max g b) - min r (min g b)) * (r * 255 / (max r (max g b) - min r (min g b))) := by
        rw [← Nat.mul_add]
        congr 1
        omega
      have hrt : roundTrip r g b
          = (max r (max g b) * (255 * 255 - (max r (max g b) - min r (min g b)) * 255 / max r (max g b) * (255 - (4 * 255 + r * 255 / (max r (max g b) - min r (min g b)) - g * 255 / (max r (max g b) - min r (min g b))) / 6 * 6 % 255)) / (255 * 255), max r (max g b) * (255 - (max r (max g b) - min r (min g b)) * 255 / max r (max g b)) / 255, max r (max g b)) := by
        show hsv_to_rgb (rgb_to_hsv r g b).1 (rgb_to_hsv r g b).2.1
            (rgb_to_hsv r g b).2.2 = _
        rw [hhsv]
        exact hsv_sector4 _ _ _ hsne hsec4
      have hramp := ramp_div_bounds (max r (max g b)) ((max r (max g b) - min r (min g b))) (r - g) ((max r (max g b) - min r (min g b)) * 255 / max r (max g b))
        ((4 * 255 + r * 255 / (max r (max g b) - min r (min g b)) - g * 255 / (max r (max g b) - min r (min g b))) / 6 * 6 % 255) ((max r (max g b) - min r (min g b)) * 255 % max r (max g b))
        (((r * 255 / (max r (max g b) - min r (min g b)) - g * 255 / (max r (max g b) - min r (min g b)) : ℕ)) : ℤ)
        (((r * 255 % (max r (max g b) - min r (min g b)) : ℕ) : ℤ) - ((g * 255 % (max r (max g b) - min r (min g b)) : ℕ) : ℤ))
        (-(((4 * 255 + r * 255 / (max r (max g b) - min r (min g b)) - g * 255 / (max r (max g b) - min r (min g b))) % 6 : ℕ) : ℤ))
        (by omega) hnpos hn255 hnv hρlt hvs
        (by omega) (by omega) (by omega) (by omega) (by omega)
        (by omega) (by omega) (by omega) (by omega)
      obtain ⟨hrp1, hrp2⟩ := hramp
      have htarget : max r (max g b) - (max r (max g b) - min r (min g b)) + (r - g) = r := by omega
      rw [htarget] at hrp1 hrp2
      rw [hrt]
      unfold within6
      refine ⟨?_, ?_, ?_, ?_, ?_, ?_⟩
      · exact hrp1
      · exact hrp2
      · show max r (max g b) * (255 - (max r (max g b) - min r (min g b)) * 255 / max r (max g b)) / 255 ≤ g + 6
        omega
      · show g ≤ max r (max g b) * (255 - (max r (max g b) - min r (min g b)) * 255 / max r (max g b)) / 255 + 6
        omega
      · show max r (max g b) ≤ b + 6
        omega
      · show b ≤ max r (max g b) + 6
        omega
    · -- sector 2 edge: h6 = 762, f = 252
      have hsec2 : (4 * 255 + r * 255 / (max r (max g b) - min r (min g b)) - g * 255 / (max r (max g b) - min r (min g b))) / 6 * 6 / 255 = 2 := by omega
      have hf252 : (4 * 255 + r * 255 / (max r (max g b) - min r (min g b)) - g * 255 / (max r (max g b) - min r (min g b))) / 6 * 6 % 255 = 252 := by omega
      have hrg : r < g := by
        rcases Nat.lt_or_ge r g with h | h
        · exact h
        · exfalso
          have hyy : g * 255 / (max r (max g b) - min r (min g b)) ≤ r * 255 / (max r (max g b) - min r (min g b)) := Nat.div_le_div_right (Nat.mul_le_mul_right 255 h)
          omega
      have hmnr : min r (min g b) = r := by omega
      have hyy : r * 255 / (max r (max g b) - min r (min g b)) ≤ g * 255 / (max r (max g b) - min r (min g b)) := Nat.div_le_div_right (Nat.mul_le_mul_right 255 (by omega))
      have hmul : (max r (max g b) - min r (min g b)) * (g * 255 / (max r (max g b) - min r (min g b)) - r * 255 / (max r (max g b) - min r (min g b))) + (max r (max g b) - min r (min g b)) * (r * 255 / (max r (max g b) - min r (min g b))) = (max r (max g b) - min r (min g b)) * (g * 255 / (max r (max g b) - min r (min g b))) := by
        rw [← Nat.mul_add]
        congr 1
        omega
      have hp : (max r (max g b) - min r (min g b)) * 253 ≤ (max r (max g b) - min r (min g b)) * (g * 255 / (max r (max g b) - min r (min g b)) - r * 255 / (max r (max g b) - min r (min g b))) :=
        Nat.mul_le_mul_left _ (by omega)
      have h252 := m3_f252_bounds (max r (max g b)) ((max r (max g b) - min r (min g b))) ((max r (max g b) - min r (min g b)) * 255 / max r (max g b)) ((max r (max g b) - min r (min g b)) * 255 % max r (max g b)) hρlt (by omega) hnv hvs
      have hrt : roundTrip r g b
          = (max r (max g b) * (255 - (max r (max g b) - min r (min g b)) * 255 / max r (max g b)) / 255, max r (max g b), max r (max g b) * (255 * 255 - (max r (max g b) - min r (min g b)) * 255 / max r (max g b) * (255 - (4 * 255 + r * 255 / (max r (max g b) - min r (min g b)) - g * 255 / (max r (max g b) - min r (min g b))) / 6 * 6 % 255)) / (255 * 255)) := by
        show hsv_to_rgb (rgb_to_hsv r g b).1 (rgb_to_hsv r g b).2.1
            (rgb_to_hsv r g b).2.2 = _
        rw [hhsv]
        exact hsv_sector2 _ _ _ hsne hsec2
      rw [hrt]
      unfold within6
      refine ⟨?_, ?_, ?_, ?_, ?_, ?_⟩
      · show max r (max g b) * (255 - (max r (max g b) - min r (min g b)) * 255 / max r (max g b)) / 255 ≤ r + 6
        omega
      · show r ≤ max r (max g b) * (255 - (max r (max g b) - min r (min g b)) * 255 / max r (max g b)) / 255 + 6
        omega
      · show max r (max g b) ≤ g + 6
        omega
      · show g ≤ max r (max g b) + 6
        omega
      · show max r (max g b) * (255 * 255 - (max r (max g b) - min r (min g b)) * 255 / max r (max g b) * (255 - (4 * 255 + r * 255 / (max r (max g b) - min r (min g b)) - g * 255 / (max r (max g b) - min r (min g b))) / 6 * 6 % 255)) / (255 * 255) ≤ b + 6
        rw [hf252]
        omega
      · show b ≤ max r (max g b) * (255 * 255 - (max r (max g b) - min r (min g b)) * 255 / max r (max g b) * (255 - (4 * 255 + r * 255 / (max r (max g b) - min r (min g b)) - g * 255 / (max r (max g b) - min r (min g b))) / 6 * 6 % 255)) / (255 * 255) + 6
        rw [hf252]
        omega

lemma roundtrip_case_gray (r g b : ℕ)
    (hn0 : max r (max g b) - min r (min g b) = 0) :
    within6 (roundTrip r g b) r g b := by
  have heq : r = g ∧ g = b := by omega
  have hhsv : rgb_to_hsv r g b = (0, 0, max r (max g b)) := by
    simp only [rgb_to_hsv, hn0, Nat.zero_mul, Nat.zero_div, if_pos rfl, ite_self,
      eq_self_iff_true, if_true]
  have hrt : roundTrip r g b = (max r (max g b), max r (max g b), max r (max g b)) := by
    show hsv_to_rgb (rgb_to_hsv r g b).1 (rgb_to_hsv r g b).2.1
        (rgb_to_hsv r g b).2.2 = _
    rw [hhsv]
    simp only [hsv_to_rgb, if_pos rfl, eq_self_iff_true, if_true]
  rw [hrt]
  unfold within6
  refine ⟨?_, ?_, ?_, ?_, ?_, ?_⟩
  · show max r (max g b) ≤ r + 6
    omega
  · show r ≤ max r (max g b) + 6
    omega
  · show max r (max g b) ≤ g + 6
    omega
  · show g ≤ max r (max g b) + 6
    omega
  · show max r (max g b) ≤ b + 6
    omega
  · show b ≤ max r (max g b) + 6
    omega

/-- Claim C7 (amended): for all 8-bit `(r, g, b)`, every channel of
`hsv_to_rgb (rgb_to_hsv r g b)` is within 6 of the corresponding original
channel (6 is attained, e.g. at `(0, 214, 146)`). -/
theorem C7_roundtrip_within_6 (r g b : ℕ)
    (hr : r ≤ 255) (hg : g ≤ 255) (hb : b ≤ 255) :
    within6 (roundTrip r g b) r g b := by
  by_cases hn0 : max r (max g b) - min r (min g b) = 0
  · exact roundtrip_case_gray r g b hn0
  · by_cases hmr : max r (max g b) = r
    · by_cases hgb : g < b
      · exact roundtrip_case_B r g b hr hg hb hn0 hmr hgb
      · exact roundtrip_case_A r g b hr hg hb hn0 hmr hgb
    · by_cases hmg : max r (max g b) = g
      · exact roundtrip_case_C r g b hr hg hb hn0 hmr hmg
      · exact roundtrip_case_D r g b hr hg hb hn0 hmr hmg

/-- Claim C7 (counterexample): the round trip of `(255, 5, 0)` is
`(255, 0, 0)` — the green channel moves by 5, more than the claimed
tolerance of 2. -/
theorem C7_counterexample :
    roundTrip 255 5 0 = (255, 0, 0)
      ∧ ¬ ((5 : ℕ) ≤ (roundTrip 255 5 0).2.1 + 2) := by
  constructor
  · rfl
  · decide

/-- Witness for C7 at the triple `(0, 214, 146)`, where the deviation 6 is
attained on the blue channel. -/
theorem C7_witness : within6 (roundTrip 0 214 146) 0 214 146 :=
  C7_roundtrip_within_6 0 214 146 (by decide) (by decide) (by decide)

/-- Witness for C10 at a concrete triple. -/
theorem C10_witness :
    rgb_to_hsv_checked 10 30 200 = some (rgb_to_hsv 10 30 200)
      ∧ (rgb_to_hsv 10 30 200).1 ≤ 255
      ∧ (rgb_to_hsv 10 30 200).2.1 ≤ 255
      ∧ (rgb_to_hsv 10 30 200).2.2 ≤ 255 :=
  C10_rgb_to_hsv_safe 10 30 200 (by decide) (by decide) (by decide)


end AutomaticClahe
